import Mathlib

/-!
Verification development for the marker-gap-filling and force-platform
kinetics core of `pyc3dserver` (file `pyc3dserver/pyc3dserver.py`).

The Python code works on NumPy float arrays.  We embed it shallowly over an
arbitrary linear ordered field `α` (instantiated with `ℚ` for concrete
evaluation and with `ℝ` for the analytic facts), making every operation an
explicit total function:

* a marker trajectory of `n` frames is a pair of functions
  `coords : ℕ → V3 α` and `resid : ℕ → α` (only indices `< n` are relevant);
* `np.isclose(resid, -1)` is translated literally with NumPy's default
  tolerances `rtol = 1e-5`, `atol = 1e-8`;
* `np.sqrt`/`np.linalg.norm` are parametrised by an abstract `sqrt : α → α`
  (instantiated with `Real.sqrt` where the value matters);
* `np.divide(v, nrm, where=(nrm!=0))` allocates an *uninitialized* output and
  fills only the entries where the mask holds; the unspecified contents of the
  untouched entries are modelled by an explicit `junk` parameter;
* `np.linalg.svd` and `scipy.interpolate.InterpolatedUnivariateSpline` are
  external oracles, modelled as function parameters;
* Python exceptions (NumPy `IndexError` on an out-of-range positive index,
  SciPy constructor errors) are modelled by an `Option` result, `none`
  standing for an escaped exception (in which case no write-back happens).
-/

namespace PyC3D

/-- A 3-vector, one row of an `(n,3)` NumPy array. -/
structure V3 (α : Type) where
  x : α
  y : α
  z : α
deriving DecidableEq

namespace V3

variable {α : Type} [LinearOrderedField α]

instance : Add (V3 α) := ⟨fun a b => ⟨a.x + b.x, a.y + b.y, a.z + b.z⟩⟩

instance : Sub (V3 α) := ⟨fun a b => ⟨a.x - b.x, a.y - b.y, a.z - b.z⟩⟩

instance : Neg (V3 α) := ⟨fun a => ⟨-a.x, -a.y, -a.z⟩⟩

instance : Zero (V3 α) := ⟨⟨0, 0, 0⟩⟩

instance : SMul α (V3 α) := ⟨fun c a => ⟨c * a.x, c * a.y, c * a.z⟩⟩

/-- Euclidean dot product of two 3-vectors. -/
def dot (a b : V3 α) : α := a.x * b.x + a.y * b.y + a.z * b.z

/-- Cross product, `np.cross` on rows of `(n,3)` arrays. -/
def cross (a b : V3 α) : V3 α :=
  ⟨a.y * b.z - a.z * b.y, a.z * b.x - a.x * b.z, a.x * b.y - a.y * b.x⟩

/-- Division of a 3-vector by a scalar, elementwise (`v / nrm` in NumPy). -/
def divS (a : V3 α) (c : α) : V3 α := ⟨a.x / c, a.y / c, a.z / c⟩

end V3

variable {α : Type} [LinearOrderedField α]

/-- Euclidean norm `np.linalg.norm(v)`, with the square root supplied as an
oracle parameter `sqrt` (floating-point `np.sqrt` in the source). -/
def vnorm (sqrt : α → α) (v : V3 α) : α := sqrt (V3.dot v v)

/-- Translation of the guarded normalization idiom of `recover_marker_rel`
(lines 3518-3524):
`np.divide(vec, nrm, where=(nrm!=0))` with `nrm = np.linalg.norm(vec)`.
NumPy allocates the output uninitialized and only writes the entries where
the mask holds, so for a zero-norm row the result row is unspecified memory,
modelled by the `junk` parameter. -/
def unitWhere (sqrt : α → α) (junk : V3 α) (v : V3 α) : V3 α :=
  let nrm := vnorm sqrt v
  if nrm ≠ 0 then V3.divS v nrm else junk

/-- A 3×3 matrix stored by columns (`mat_rot = np.asarray([x.T, y.T, z.T]).T`
has columns `x, y, z`). -/
structure M3 (α : Type) where
  cx : V3 α
  cy : V3 α
  cz : V3 α
deriving DecidableEq

namespace M3

variable {α : Type} [LinearOrderedField α]

/-- Matrix–vector product `np.dot(M, v)`. -/
def mulVec (M : M3 α) (v : V3 α) : V3 α := v.x • M.cx + v.y • M.cy + v.z • M.cz

/-- Matrix transpose `M.T`. -/
def transp (M : M3 α) : M3 α :=
  ⟨⟨M.cx.x, M.cy.x, M.cz.x⟩, ⟨M.cx.y, M.cy.y, M.cz.y⟩, ⟨M.cx.z, M.cy.z, M.cz.z⟩⟩

/-- Matrix–matrix product `np.dot(A, B)`: the columns of the product are `A`
applied to the columns of `B`. -/
def matMul (A B : M3 α) : M3 α := ⟨A.mulVec B.cx, A.mulVec B.cy, A.mulVec B.cz⟩

/-- Determinant of a 3×3 matrix given by columns. -/
def det3 (M : M3 α) : α := V3.dot M.cx (V3.cross M.cy M.cz)

/-- Diagonal matrix `np.diag([a, b, c])`. -/
def diag3 (a b c : α) : M3 α := ⟨⟨a, 0, 0⟩, ⟨0, b, 0⟩, ⟨0, 0, c⟩⟩

end M3

/-- The local coordinate system built from three cluster markers
(`recover_marker_rel` lines 3516-3528; identically in `recover_marker_rbt`):
`x = unit(p1-p0)`, `z = unit(cross(x, unit(p2-p0)))`, `y = cross(z, x)`,
returned as the rotation matrix with columns `x, y, z`. -/
def localFrame (sqrt : α → α) (junk : V3 α) (p0 p1 p2 : V3 α) : M3 α :=
  let vec0 := p1 - p0
  let vec1 := p2 - p0
  let vec0u := unitWhere sqrt junk vec0
  let vec1u := unitWhere sqrt junk vec1
  let vec2 := V3.cross vec0u vec1u
  let vec2u := unitWhere sqrt junk vec2
  ⟨vec0u, V3.cross vec2u vec0u, vec2u⟩

/-- The `np.einsum('ij,ijk->ik', d, mat_rot)` step of `recover_marker_rel`
(line 3529): the components of `d` along the columns of `M`, i.e. `Mᵀ d`. -/
def einsumRel (M : M3 α) (d : V3 α) : V3 α := ⟨V3.dot d M.cx, V3.dot d M.cy, V3.dot d M.cz⟩

/-! ### Validity masks

Blocked frames are marked by the residual sentinel `-1`; the code tests
`np.isclose(resid, -1)` (NumPy defaults `rtol = 1e-5`, `atol = 1e-8`, and
`np.isclose(a, b)` is `|a - b| ≤ atol + rtol * |b|`). -/

/-- One entry of `np.isclose(resid, -1)`. -/
def isCloseNeg1 (r : α) : Bool :=
  decide (|r - (-1)| ≤ 1 / 100000000 + (1 / 100000) * |(-1 : α)|)

/-- One entry of the validity mask `np.where(np.isclose(resid, -1), False, True)`. -/
def validB (r : α) : Bool := ! isCloseNeg1 r

/-- Indices of the `true` entries of a per-frame Boolean predicate, in
ascending order — `np.where(mask)[0]` for a length-`n` mask. -/
def trueFrames (n : ℕ) (p : ℕ → Bool) : List ℕ := (List.range n).filter p

/-- The frames where the target residual is valid. -/
def validFrames (n : ℕ) (resid : ℕ → α) : List ℕ := trueFrames n fun fr => validB (resid fr)

/-- Number of valid frames, `np.count_nonzero(valid_mask)`. -/
def countValid (n : ℕ) (resid : ℕ → α) : ℕ := (validFrames n resid).length

/-- `np.searchsorted(xs, v)` (side `'left'`) on an ascending list:
the number of elements strictly below `v`. -/
def searchsorted (xs : List ℕ) (v : ℕ) : ℕ :=
  (xs.takeWhile fun a => decide (a < v)).length

/-- `(np.abs(xs - fr)).argmin()`: the position of the first element of `xs`
minimizing the distance to `fr`. -/
def nearestIdx (xs : List ℕ) (fr : ℕ) : ℕ :=
  match xs with
  | [] => 0
  | a :: _ =>
    (xs.enum.foldl
      (fun acc p => if Nat.dist p.2 fr < acc.2 then (p.1, Nat.dist p.2 fr) else acc)
      ((0 : ℕ), Nat.dist a fr)).1

/-! ### Contiguous runs of invalid frames

`fill_marker_gap_pattern` / `fill_marker_gap_interp` compute
`np.split(invalid_frs, np.where(np.diff(invalid_frs) != 1)[0] + 1)`, which
cuts the ascending list of invalid frame indices into its maximal runs of
consecutive integers.  We produce those maximal runs directly: a run starts
at `s` iff `p s` holds and either `s = 0` or `p (s-1)` fails, and extends
while `p` keeps holding. -/

/-- The maximal run of consecutive `p`-frames starting at `s` (within `[0, n)`). -/
def runAt (p : ℕ → Bool) (n s : ℕ) : List ℕ := (List.range' s (n - s)).takeWhile p

/-- Starting indices of the maximal runs of `p`-frames in `[0, n)`. -/
def runStarts (p : ℕ → Bool) (n : ℕ) : List ℕ :=
  (List.range n).filter fun i => p i && (i == 0 || ! p (i - 1))

/-- All maximal runs of `p`-frames in `[0, n)`; for `p` = "target invalid"
this is exactly the list of arrays produced by the `np.split` idiom. -/
def runs (p : ℕ → Bool) (n : ℕ) : List (List ℕ) := (runStarts p n).map (runAt p n)

/-- The gap segmenter of the specification (§4.2): the maximal runs of
invalid frames, excluding any run touching frame `0` or frame `n-1`
(every strategy that iterates over gaps skips those runs with
`if gap.min()==0 or gap.max()==n_total_frs-1: continue`). -/
def gapSegmenter (n : ℕ) (validMask : ℕ → Bool) : List (List ℕ) :=
  (runs (fun fr => ! validMask fr) n).filter fun g =>
    ! (g.headD 0 == 0 || g.getLastD 0 == n - 1)

/-! ### Force-plate kinetics: threshold masking and COP solve

Embedding of the plate-type-independent tail of `get_fp_output`
(lines 2319-2346): given the per-frame local force `f_raw` and moment
`m_raw` triples already assembled for the plate type, the code masks the
frames whose `|Fz|` is below the threshold, zeroes all six components
there, and solves the clipped plate-local COP.  `np.nan` (produced by
`np.where(mask, np.nan, …)`) is modelled by `none`; `np.inf` (substituted
for `Fz` on masked frames) is modelled by `⊤` in `WithTop α`. -/

/-- One entry of `fm_skip_mask = np.abs(f_raw[:,2]) <= threshold` (line 2320). -/
def fmSkipMask (threshold : α) (fRaw : ℕ → V3 α) (fr : ℕ) : Bool :=
  decide (|(fRaw fr).z| ≤ threshold)

/-- One row of `f_sensor_local`: a copy of `f_raw` with the threshold-masked
frames zeroed (lines 2321, 2324). -/
def fSensorLocal (threshold : α) (fRaw : ℕ → V3 α) (fr : ℕ) : V3 α :=
  if fmSkipMask threshold fRaw fr then 0 else fRaw fr

/-- One row of `m_sensor_local`: a copy of `m_raw` with the threshold-masked
frames zeroed (lines 2322, 2325); the mask is driven by `f_raw[:,2]`. -/
def mSensorLocal (threshold : α) (fRaw mRaw : ℕ → V3 α) (fr : ℕ) : V3 α :=
  if fmSkipMask threshold fRaw fr then 0 else mRaw fr

/-- `np.clip(v, lo, hi)`, i.e. `min (max v lo) hi`. -/
def clip (v lo hi : α) : α := min (max v lo) hi

/-- One entry of `f_z_adj = np.where(fm_skip_mask, np.inf, f_z)` (line 2333);
`⊤` stands for `np.inf`. -/
def fzAdj (threshold : α) (fRaw : ℕ → V3 α) (fr : ℕ) : WithTop α :=
  if fmSkipMask threshold fRaw fr then ⊤ else ((fSensorLocal threshold fRaw fr).z : WithTop α)

/-- One entry of
`cop_l_x = np.where(mask, np.nan, np.clip((-m_y+(-o_z)*f_x)/f_z_adj+o_x, -len_x/2, len_x/2))`
(line 2334); `none` stands for `np.nan`.  On unmasked frames `f_z_adj`
equals the finite `f_z`, so the division is by `f_z`. -/
def copLX (threshold oX oZ lenX : α) (fRaw mRaw : ℕ → V3 α) (fr : ℕ) : Option α :=
  if fmSkipMask threshold fRaw fr then none
  else some (clip ((-(mSensorLocal threshold fRaw mRaw fr).y
      + (-oZ) * (fSensorLocal threshold fRaw fr).x) / (fSensorLocal threshold fRaw fr).z + oX)
    (-(lenX / 2)) (lenX / 2))

/-- One entry of
`cop_l_y = np.where(mask, np.nan, np.clip((m_x+(-o_z)*f_y)/f_z_adj+o_y, -len_y/2, len_y/2))`
(line 2335). -/
def copLY (threshold oY oZ lenY : α) (fRaw mRaw : ℕ → V3 α) (fr : ℕ) : Option α :=
  if fmSkipMask threshold fRaw fr then none
  else some (clip (((mSensorLocal threshold fRaw mRaw fr).x
      + (-oZ) * (fSensorLocal threshold fRaw fr).y) / (fSensorLocal threshold fRaw fr).z + oY)
    (-(lenY / 2)) (lenY / 2))

/-- One entry of `cop_l_z = np.where(mask, np.nan, zero_vals)` (line 2336). -/
def copLZ (threshold : α) (fRaw : ℕ → V3 α) (fr : ℕ) : Option α :=
  if fmSkipMask threshold fRaw fr then none else some 0

/-- The optional `np.nan_to_num` pass (lines 2337-2340) applied to a COP
entry: with `cop_nan_to_num=True` every NaN becomes `0`. -/
def copNanToNum (nanToNum : Bool) (c : Option α) : Option α :=
  if nanToNum then some (c.getD 0) else c

/-! ### Marker gap-fill strategies

Every strategy returns `(updated : bool, n_valid_frames_after : int)` and,
on success, writes the edited arrays back through
`set_marker_pos` / `set_marker_resid`.  We capture the write-back as an
optional pair of functions: `none` means the session was not touched. -/

/-- The pair of arrays passed to `set_marker_pos` / `set_marker_resid`. -/
structure WriteBack (α : Type) where
  pos : ℕ → V3 α
  resid : ℕ → α

/-- The observable outcome of one strategy call: the returned Boolean, the
returned valid-frame count, and the optional session write-back. -/
structure FillResult (α : Type) where
  updated : Bool
  nValid : ℕ
  wr : Option (WriteBack α)

/-- Point update of one row of a NumPy array (`arr[fr] = v`). -/
def updF {β : Type} (f : ℕ → β) (i : ℕ) (v : β) : ℕ → β :=
  fun j => if j = i then v else f j

/-- Mutable loop state of the gap-filling loops: the (initially original)
coordinate and residual arrays plus the `b_updated` flag. -/
structure GapState (α : Type) where
  c : ℕ → V3 α
  r : ℕ → α
  upd : Bool

/-- Strategy A, `recover_marker_rel` (lines 3475-3551): recovers the target
marker from a local coordinate system built on three cluster markers,
interpolating the target's local offset between the two temporally nearest
jointly-valid frames (snapping to the nearest one outside their range). -/
def recover_marker_rel (sqrt : α → α) (junk : V3 α) (n : ℕ)
    (tgtC : ℕ → V3 α) (tgtR : ℕ → α)
    (c0 c1 c2 : ℕ → V3 α) (r0 r1 r2 : ℕ → α) : FillResult α :=
  let tgtValid : ℕ → Bool := fun fr => validB (tgtR fr)
  let nTgtValid := countValid n tgtR
  if nTgtValid = 0 then ⟨false, nTgtValid, none⟩
  else if nTgtValid = n then ⟨false, nTgtValid, none⟩
  else
    let clValid : ℕ → Bool := fun fr => validB (r0 fr) && validB (r1 fr) && validB (r2 fr)
    let allValid : ℕ → Bool := fun fr => clValid fr && tgtValid fr
    let clOnly : ℕ → Bool := fun fr => clValid fr && ! tgtValid fr
    if (trueFrames n allValid).isEmpty then ⟨false, nTgtValid, none⟩
    else if (trueFrames n clOnly).isEmpty then ⟨false, nTgtValid, none⟩
    else
      let allFrs := trueFrames n allValid
      let matRot : ℕ → M3 α := fun fr => localFrame sqrt junk (c0 fr) (c1 fr) (c2 fr)
      let relOff : ℕ → V3 α := fun fr => einsumRel (matRot fr) (tgtC fr - c0 fr)
      let recovered : ℕ → V3 α := fun fr =>
        let s := searchsorted allFrs fr
        let rel :=
          if s ≥ allFrs.length ∨ s = 0 then relOff (allFrs.getD (nearestIdx allFrs fr) 0)
          else
            let fr0 := allFrs.getD (s - 1) 0
            let fr1 := allFrs.getD s 0
            let a : α := ((fr - fr0 : ℕ) : α)
            let b : α := ((fr1 - fr : ℕ) : α)
            V3.divS (b • relOff fr0 + a • relOff fr1) (a + b)
        c0 fr + (matRot fr).mulVec rel
      let newC : ℕ → V3 α := fun fr => if clOnly fr then recovered fr else tgtC fr
      let newR : ℕ → α := fun fr => if clOnly fr then 0 else tgtR fr
      ⟨true, countValid n newR, some ⟨newC, newR⟩⟩

/-- Stable insertion of a keyed pair: the new element goes after every
element whose key is `≤` its key (the order Python's stable `sorted`
keeps for elements arriving later). -/
def insertPair (p : ℕ × α) : List (ℕ × α) → List (ℕ × α)
  | [] => [p]
  | q :: qs => if p.2 < q.2 then p :: q :: qs else q :: insertPair p qs

/-- Stable sort by key of a keyed list, `sorted(d.items(), key=lambda kv: kv[1])`. -/
def sortPairs (l : List (ℕ × α)) : List (ℕ × α) := l.foldl (fun acc p => insertPair p acc) []

/-- Selection of a cluster marker by position in `cl_mkr_names`. -/
def pickCl (c0 c1 c2 : ℕ → V3 α) (j : ℕ) : ℕ → V3 α :=
  if j = 0 then c0 else if j = 1 then c1 else c2

/-- The marker ordering step of `recover_marker_rbt` (lines 3632-3636):
each cluster marker's mean distance to the target over all frames
(`np.nanmean(np.linalg.norm(...))`; with `blocked_nan=False` the stored
coordinates are all finite, so `nanmean` is the plain mean), stably sorted
ascending. -/
def rbtOrder (sqrt : α → α) (n : ℕ) (tgtC : ℕ → V3 α) (c0 c1 c2 : ℕ → V3 α) :
    List (ℕ × α) :=
  let meanDist : ℕ → α := fun j =>
    (((List.range n).map fun fr => vnorm sqrt (pickCl c0 c1 c2 j fr - tgtC fr)).sum) / (n : α)
  sortPairs [(0, meanDist 0), (1, meanDist 1), (2, meanDist 2)]

/-- One iteration of the frame loop of `recover_marker_rbt`
(lines 3655-3678), writing the transported estimate and residual `0.0`
into the working arrays at the loop frame `fr`. -/
def recoverRbtStep (allFrs : List ℕ) (matRot : ℕ → M3 α) (vec3 p0 : ℕ → V3 α)
    (st : GapState α) (fr : ℕ) : GapState α :=
  let s := searchsorted allFrs fr
  let vc :=
    if s = 0 then
      let fr0 := allFrs.getD 0 0
      ((matRot fr).matMul (matRot fr0).transp).mulVec (vec3 fr0)
    else if s ≥ allFrs.length then
      let fr1 := allFrs.getD (allFrs.length - 1) 0
      ((matRot fr).matMul (matRot fr1).transp).mulVec (vec3 fr1)
    else
      let fr0 := allFrs.getD (s - 1) 0
      let fr1 := allFrs.getD s 0
      let vt0 := ((matRot fr).matMul (matRot fr0).transp).mulVec (vec3 fr0)
      let vt1 := ((matRot fr).matMul (matRot fr1).transp).mulVec (vec3 fr1)
      let a : α := ((fr - fr0 : ℕ) : α)
      let b : α := ((fr1 - fr : ℕ) : α)
      V3.divS (b • vt0 + a • vt1) (a + b)
  ⟨updF st.c fr (p0 fr + vc), updF st.r fr 0, st.upd⟩

/-- The frame loop of `recover_marker_rbt` (lines 3637-3678) bundled with
the construction of its distance-ordered markers, rotation matrices and
offset vectors. -/
def recoverRbtFill (sqrt : α → α) (junk : V3 α) (n : ℕ)
    (tgtC : ℕ → V3 α) (tgtR : ℕ → α) (c0 c1 c2 : ℕ → V3 α)
    (allFrs clOnlyFrs : List ℕ) : GapState α :=
  let p0 := pickCl c0 c1 c2 ((rbtOrder sqrt n tgtC c0 c1 c2).getD 0 (0, 0)).1
  let p1 := pickCl c0 c1 c2 ((rbtOrder sqrt n tgtC c0 c1 c2).getD 1 (0, 0)).1
  let p2 := pickCl c0 c1 c2 ((rbtOrder sqrt n tgtC c0 c1 c2).getD 2 (0, 0)).1
  let vec3 : ℕ → V3 α := fun fr => tgtC fr - p0 fr
  let matRot : ℕ → M3 α := fun fr => localFrame sqrt junk (p0 fr) (p1 fr) (p2 fr)
  clOnlyFrs.foldl (recoverRbtStep allFrs matRot vec3 p0) ⟨tgtC, tgtR, false⟩

/-- Strategy B, `recover_marker_rbt` (lines 3559-3689): like Strategy A but
transporting the target's offset vector with the rotation delta
`R_gap · R_bracketᵀ` from each bracketing jointly-valid frame, blending the
two transported estimates linearly (single-sided outside the brackets).
The three cluster markers are re-ordered by mean distance to the target. -/
def recover_marker_rbt (sqrt : α → α) (junk : V3 α) (n : ℕ)
    (tgtC : ℕ → V3 α) (tgtR : ℕ → α)
    (c0 c1 c2 : ℕ → V3 α) (r0 r1 r2 : ℕ → α) : FillResult α :=
  let tgtValid : ℕ → Bool := fun fr => validB (tgtR fr)
  let nTgtValid := countValid n tgtR
  if nTgtValid = 0 then ⟨false, nTgtValid, none⟩
  else if nTgtValid = n then ⟨false, nTgtValid, none⟩
  else
    let clValid : ℕ → Bool := fun fr => validB (r0 fr) && validB (r1 fr) && validB (r2 fr)
    let allValid : ℕ → Bool := fun fr => clValid fr && tgtValid fr
    let clOnly : ℕ → Bool := fun fr => clValid fr && ! tgtValid fr
    if (trueFrames n allValid).isEmpty then ⟨false, nTgtValid, none⟩
    else if (trueFrames n clOnly).isEmpty then ⟨false, nTgtValid, none⟩
    else
      let fin := recoverRbtFill sqrt junk n tgtC tgtR c0 c1 c2 (trueFrames n allValid)
        (trueFrames n clOnly)
      ⟨true, countValid n fin.r, some ⟨fin.c, fin.r⟩⟩

/-- List sum of 3-vectors (`A.sum(axis=0)` on an `(m,3)` array). -/
def vsum (l : List (V3 α)) : V3 α := l.foldr (· + ·) 0

/-- Column mean of an `(m,3)` point-set array, `A.mean(axis=0)`. -/
def centroidF {m : ℕ} (A : Fin m → V3 α) : V3 α :=
  V3.divS (vsum ((List.finRange m).map A)) (m : α)

/-- Cross-covariance `C = np.dot((B-Bc).T, (A-Ac))` of two point sets,
as a 3×3 matrix by columns: column `k` of `C` is `Σᵢ (A i - Ac)ₖ • (B i - Bc)`. -/
def crossCovM3 {m : ℕ} (A B : Fin m → V3 α) : M3 α :=
  let Ac := centroidF A
  let Bc := centroidF B
  ⟨vsum ((List.finRange m).map fun i => (A i - Ac).x • (B i - Bc)),
   vsum ((List.finRange m).map fun i => (A i - Ac).y • (B i - Bc)),
   vsum ((List.finRange m).map fun i => (A i - Ac).z • (B i - Bc))⟩

/-- Output of the `RBT` helper of `fill_marker_gap_rbt`. -/
structure RBTOut (α : Type) (m : ℕ) where
  R : M3 α
  t : V3 α
  errVec : Fin m → V3 α
  errNorm : Fin m → α
  meanErrNorm : α

/-- The `RBT(A, B)` helper of `fill_marker_gap_rbt` (lines 3722-3732):
centroid removal, cross-covariance, SVD (supplied by the `svd` oracle,
`np.linalg.svd` in the source, returning `U, S, Vt`), and the
reflection-corrected rotation
`R = U · diag(1, 1, det(U·Vt)) · Vt`, `t = Bc - R·Ac`. -/
def RBT (sqrt : α → α) (svd : M3 α → M3 α × V3 α × M3 α) {m : ℕ}
    (A B : Fin m → V3 α) : RBTOut α m :=
  let Ac := centroidF A
  let Bc := centroidF B
  let C := crossCovM3 A B
  let p := svd C
  let U := p.1
  let Vt := p.2.2
  let R := U.matMul ((M3.diag3 1 1 ((U.matMul Vt).det3)).matMul Vt)
  let t := Bc - R.mulVec Ac
  let errVec : Fin m → V3 α := fun i => R.mulVec (A i) + t - B i
  let errNorm : Fin m → α := fun i => vnorm sqrt (errVec i)
  ⟨R, t, errVec, errNorm, (((List.finRange m).map errNorm).sum) / (m : α)⟩

/-- The value `fill_marker_gap_rbt` writes into a gap frame
(lines 3793-3797): the two `RBT` fits from the brackets applied to the
target there, blended linearly by frame distance. -/
def fillRbtVal (sqrt : α → α) (svd : M3 α → M3 α × V3 α × M3 α) {m : ℕ}
    (clC : Fin m → ℕ → V3 α) (c : ℕ → V3 α) (fr0 fr1 fr : ℕ) : V3 α :=
  let fit0 := RBT sqrt svd (fun i => clC i fr0) (fun i => clC i fr)
  let fit1 := RBT sqrt svd (fun i => clC i fr1) (fun i => clC i fr)
  let e0 := fit0.R.mulVec (c fr0) + fit0.t
  let e1 := fit1.R.mulVec (c fr1) + fit1.t
  (((fr - fr0 : ℕ) : α) / ((fr1 - fr0 : ℕ) : α)) • (e1 - e0) + e0

/-- One iteration of the frame loop of `fill_marker_gap_rbt`
(lines 3772-3799): bracket lookup, the three skip conditions, and the
blended write (`fillRbtVal`).  `none` models the NumPy `IndexError` raised
by `all_frs[1]` when `search_idx == 0` and the list has fewer than two
elements (a NumPy negative index as in `all_frs[len-2]` for `len = 1` wraps
around instead, to `all_frs[0]`, like `getD (len-2)` does). -/
def fillRbtStep (sqrt : α → α) (svd : M3 α → M3 α × V3 α × M3 α) {m : ℕ}
    (clC : Fin m → ℕ → V3 α) (clValid : ℕ → Bool) (allFrs : List ℕ)
    (ost : Option (GapState α)) (fr : ℕ) : Option (GapState α) :=
  match ost with
  | none => none
  | some st =>
    let s := searchsorted allFrs fr
    if s = 0 ∧ allFrs.length < 2 then none
    else
      let fr0 :=
        if s = 0 then allFrs.getD 0 0
        else if s ≥ allFrs.length then allFrs.getD (allFrs.length - 2) 0
        else allFrs.getD (s - 1) 0
      let fr1 :=
        if s = 0 then allFrs.getD 1 0
        else if s ≥ allFrs.length then allFrs.getD (allFrs.length - 1) 0
        else allFrs.getD s 0
      if fr ≤ fr0 ∨ fr1 ≤ fr then some st
      else if ! (clValid fr0 && clValid fr1) then some st
      else if ! ((List.range' fr0 (fr1 + 1 - fr0)).all clValid) then some st
      else
        some ⟨updF st.c fr (fillRbtVal sqrt svd clC st.c fr0 fr1 fr), updF st.r fr 0, true⟩

/-- Strategy C, `fill_marker_gap_rbt` (lines 3691-3814): for each
cluster-valid/target-invalid frame strictly between two jointly-valid
brackets `fr0 < fr < fr1` with an all-valid cluster over `[fr0, fr1]`,
transports the target from both brackets with `RBT` fits and blends
linearly.  `none` models the NumPy `IndexError` escaping when
`all_mkr_valid_frs` has a single element and `all_frs[1]` is read. -/
def fill_marker_gap_rbt (sqrt : α → α) (svd : M3 α → M3 α × V3 α × M3 α) (n : ℕ)
    (tgtC : ℕ → V3 α) (tgtR : ℕ → α) (m : ℕ)
    (clC : Fin m → ℕ → V3 α) (clR : Fin m → ℕ → α) : Option (FillResult α) :=
  let tgtValid : ℕ → Bool := fun fr => validB (tgtR fr)
  let nTgtValid := countValid n tgtR
  if nTgtValid = 0 then some ⟨false, nTgtValid, none⟩
  else if nTgtValid = n then some ⟨false, nTgtValid, none⟩
  else
    let clValid : ℕ → Bool := fun fr => (List.finRange m).all fun i => validB (clR i fr)
    let allValid : ℕ → Bool := fun fr => clValid fr && tgtValid fr
    let clOnly : ℕ → Bool := fun fr => clValid fr && ! tgtValid fr
    if (trueFrames n allValid).isEmpty then some ⟨false, nTgtValid, none⟩
    else if (trueFrames n clOnly).isEmpty then some ⟨false, nTgtValid, none⟩
    else
      let allFrs := trueFrames n allValid
      match (trueFrames n clOnly).foldl (fillRbtStep sqrt svd clC clValid allFrs)
          (some ⟨tgtC, tgtR, false⟩) with
      | none => none
      | some fin =>
        if fin.upd then some ⟨true, countValid n fin.r, some ⟨fin.c, fin.r⟩⟩
        else some ⟨false, nTgtValid, none⟩

/-- The per-gap search window of `fill_marker_gap_pattern` and
`fill_marker_gap_interp`: `span` frames immediately before the gap and
`span` frames immediately after it, clipped to `[0, n)`. -/
def windowMask (gmin gmax span n i : ℕ) : Bool :=
  (decide (i < gmin) && decide (gmin ≤ i + span))
    || (decide (gmax < i) && decide (i ≤ gmax + span) && decide (i < n))

/-- The search window of one gap `g`: `ceil(gap_size / 2) + offset` frames
on each side of the gap (lines 3890-3895 and 3997-4002). -/
def gapWindow (n offset : ℕ) (g : List ℕ) (i : ℕ) : Bool :=
  windowMask (g.headD 0) (g.getLastD 0) ((g.length + 1) / 2 + offset) n i

/-- The valid target frames inside the search window of gap `g`
(`gap_near_tgt_mkr_valid_mask` / `itpl_cand_frs_mask`). -/
def gapCand (n offset : ℕ) (tgtValid : ℕ → Bool) (g : List ℕ) (i : ℕ) : Bool :=
  gapWindow n offset g i && tgtValid i

/-- One iteration of the per-gap frame loop of `fill_marker_gap_pattern`
(lines 3903-3922): bracket lookup in the jointly-valid frames near the gap,
the two skip conditions, and the pattern-reconstruction write.  `none`
models the NumPy `IndexError` on `gap_near_both_mkr_valid_frs[1]` (or
`[0]`) when that array has fewer than two elements. -/
def patternStep (dnrC : ℕ → V3 α) (dnrValid : ℕ → Bool) (bothFrs : List ℕ)
    (ost : Option (GapState α)) (fr : ℕ) : Option (GapState α) :=
  match ost with
  | none => none
  | some st =>
    let s := searchsorted bothFrs fr
    if s = 0 ∧ bothFrs.length < 2 then none
    else
      let fr0 :=
        if s = 0 then bothFrs.getD 0 0
        else if s ≥ bothFrs.length then bothFrs.getD (bothFrs.length - 2) 0
        else bothFrs.getD (s - 1) 0
      let fr1 :=
        if s = 0 then bothFrs.getD 1 0
        else if s ≥ bothFrs.length then bothFrs.getD (bothFrs.length - 1) 0
        else bothFrs.getD s 0
      if fr ≤ fr0 ∨ fr1 ≤ fr then some st
      else if ! (dnrValid fr0 && dnrValid fr1) then some st
      else
        let w : α := ((fr - fr0 : ℕ) : α) / ((fr1 - fr0 : ℕ) : α)
        let vTgt := w • (st.c fr1 - st.c fr0) + st.c fr0
        let vDnr := w • (dnrC fr1 - dnrC fr0) + dnrC fr0
        some ⟨updF st.c fr (vTgt - vDnr + dnrC fr), updF st.r fr 0, true⟩

/-- The per-gap body of `fill_marker_gap_pattern` (lines 3885-3922):
boundary and window checks followed by the frame loop. -/
def patternProcessGap (n : ℕ) (dnrC : ℕ → V3 α) (tgtValid dnrValid : ℕ → Bool)
    (searchSpanOffset minNeededFrs : ℕ)
    (ost : Option (GapState α)) (g : List ℕ) : Option (GapState α) :=
  match ost with
  | none => none
  | some st =>
    if g.isEmpty then some st
    else if g.headD 0 = 0 ∨ g.getLastD 0 = n - 1 then some st
    else
      let nearTgt : ℕ → Bool := gapCand n searchSpanOffset tgtValid g
      if (trueFrames n nearTgt).length < minNeededFrs then some st
      else if g.any (fun fr => ! dnrValid fr) then some st
      else
        let bothFrs := trueFrames n fun i => nearTgt i && dnrValid i
        g.foldl (patternStep dnrC dnrValid bothFrs) (some st)

/-- Strategy D, `fill_marker_gap_pattern` (lines 3816-3937): fills each
internal gap from a donor marker by transporting the donor's actual
position with the linearly interpolated target−donor offset.  `none`
models the NumPy `IndexError` escaping when
`gap_near_both_mkr_valid_frs` has fewer than two elements and index `0`
or `1` is read. -/
def fill_marker_gap_pattern (n : ℕ) (tgtC : ℕ → V3 α) (tgtR : ℕ → α)
    (dnrC : ℕ → V3 α) (dnrR : ℕ → α)
    (searchSpanOffset minNeededFrs : ℕ) : Option (FillResult α) :=
  let tgtValid : ℕ → Bool := fun fr => validB (tgtR fr)
  let nTgtValid := countValid n tgtR
  if nTgtValid = 0 then some ⟨false, nTgtValid, none⟩
  else if nTgtValid = n then some ⟨false, nTgtValid, none⟩
  else
    let dnrValid : ℕ → Bool := fun fr => validB (dnrR fr)
    if (trueFrames n dnrValid).isEmpty then some ⟨false, nTgtValid, none⟩
    else if (trueFrames n fun fr => tgtValid fr && dnrValid fr).isEmpty then
      some ⟨false, nTgtValid, none⟩
    else
      let gaps := runs (fun fr => ! tgtValid fr) n
      match gaps.foldl
          (patternProcessGap n dnrC tgtValid dnrValid searchSpanOffset minNeededFrs)
          (some ⟨tgtC, tgtR, false⟩) with
      | none => none
      | some fin =>
        if fin.upd then some ⟨true, countValid n fin.r, some ⟨fin.c, fin.r⟩⟩
        else some ⟨false, nTgtValid, none⟩

/-- The write loop of one gap of `fill_marker_gap_interp` (lines 4013-4017):
every frame of the gap receives the three spline values and residual `0.0`. -/
def interpWriteStep (fx fy fz : ℕ → α) (st : GapState α) (fr : ℕ) : GapState α :=
  ⟨updF st.c fr ⟨fx fr, fy fr, fz fr⟩, updF st.r fr 0, st.upd⟩

/-- The per-gap body of `fill_marker_gap_interp` (lines 3994-4018):
boundary and candidate-count checks, the three per-axis spline fits, and
the write loop.  `none` models the SciPy constructor error (degree outside
`[1, 5]`, or not more candidate frames than the degree). -/
def interpProcessGap (spline : List ℕ → List α → ℕ → α) (n : ℕ)
    (tgtValid : ℕ → Bool) (k searchSpanOffset minNeededFrs : ℕ)
    (ost : Option (GapState α)) (g : List ℕ) : Option (GapState α) :=
  match ost with
  | none => none
  | some st =>
    if g.isEmpty then some st
    else if g.headD 0 = 0 ∨ g.getLastD 0 = n - 1 then some st
    else
      let cand := trueFrames n (gapCand n searchSpanOffset tgtValid g)
      if cand.length < minNeededFrs then some st
      else if k < 1 ∨ 5 < k ∨ cand.length ≤ k then none
      else
        let fx := spline cand (cand.map fun f => (st.c f).x)
        let fy := spline cand (cand.map fun f => (st.c f).y)
        let fz := spline cand (cand.map fun f => (st.c f).z)
        let fin := g.foldl (interpWriteStep fx fy fz) st
        some ⟨fin.c, fin.r, true⟩

/-- Strategy E, `fill_marker_gap_interp` (lines 3939-4033): fills each
internal gap by evaluating one univariate spline per axis, fitted over the
valid frames in the per-gap search window.
`scipy.interpolate.InterpolatedUnivariateSpline` is the `spline` oracle:
given the knot frames and knot values it returns the evaluation function.
`none` models the SciPy constructor error escaping when the spline degree
is outside `[1, 5]` or there are at most `k` candidate frames. -/
def fill_marker_gap_interp (spline : List ℕ → List α → ℕ → α) (n : ℕ)
    (tgtC : ℕ → V3 α) (tgtR : ℕ → α)
    (k searchSpanOffset minNeededFrs : ℕ) : Option (FillResult α) :=
  let tgtValid : ℕ → Bool := fun fr => validB (tgtR fr)
  let nTgtValid := countValid n tgtR
  if nTgtValid = 0 then some ⟨false, nTgtValid, none⟩
  else if nTgtValid = n then some ⟨false, nTgtValid, none⟩
  else
    let gaps := runs (fun fr => ! tgtValid fr) n
    match gaps.foldl (interpProcessGap spline n tgtValid k searchSpanOffset minNeededFrs)
        (some ⟨tgtC, tgtR, false⟩) with
    | none => none
    | some fin =>
      if fin.upd then some ⟨true, countValid n fin.r, some ⟨fin.c, fin.r⟩⟩
      else some ⟨false, nTgtValid, none⟩

/-! ### The `RBT` helper in Mathlib matrix form

For the analytic facts about the Kabsch fit (claim about `det(R)` and exact
recovery of rigid transforms) we re-express the `RBT` helper of
`fill_marker_gap_rbt` (lines 3722-3732) over `Matrix (Fin n) (Fin 3)`:
point sets are `(n,3)` arrays exactly as in NumPy.  `np.linalg.svd` is an
oracle; its output `U, S, Vt` enters as universally quantified data
constrained by what `np.linalg.svd` guarantees (orthogonal factors,
non-negative descending singular values, and `C = U @ np.diag(S) @ Vt`). -/

section KabschMatrix

variable {F : Type} [Field F]

/-- Column mean `A.mean(axis=0)` of an `(n,3)` point-set array. -/
def ptCentroid {n : ℕ} (A : Matrix (Fin n) (Fin 3) F) : Fin 3 → F :=
  fun j => (∑ i, A i j) / (n : F)

/-- Centroid removal `A - A.mean(axis=0)`. -/
def centered {n : ℕ} (A : Matrix (Fin n) (Fin 3) F) : Matrix (Fin n) (Fin 3) F :=
  Matrix.of fun i j => A i j - ptCentroid A j

/-- Cross-covariance `C = np.dot((B - Bc).T, (A - Ac))`. -/
def crossCov {n : ℕ} (A B : Matrix (Fin n) (Fin 3) F) : Matrix (Fin 3) (Fin 3) F :=
  (centered B).transpose * centered A

/-- The reflection-correction factor `np.diag([1, 1, np.linalg.det(np.dot(U, Vt))])`
(line 3727): the determinant of `U·Vt` is injected at the third (last)
diagonal position. -/
def reflDiag (U Vt : Matrix (Fin 3) (Fin 3) F) : Matrix (Fin 3) (Fin 3) F :=
  Matrix.diagonal ![1, 1, (U * Vt).det]

/-- The corrected rotation `R = np.dot(U, np.dot(reflDiag, Vt))` (line 3727). -/
def rbtRot (U Vt : Matrix (Fin 3) (Fin 3) F) : Matrix (Fin 3) (Fin 3) F :=
  U * reflDiag U Vt * Vt

/-- Modelled from the spec's words ("reflection-correction: `det(U·Vᵗ)` sign
injected into the *middle* singular value"): the correction factor with the
determinant at the second (middle) diagonal position, to be compared with
`reflDiag`, which is the translation of the source. -/
def reflDiagMiddleSpec (U Vt : Matrix (Fin 3) (Fin 3) F) : Matrix (Fin 3) (Fin 3) F :=
  Matrix.diagonal ![1, (U * Vt).det, 1]

/-- The rotation the spec's wording describes (sign injected into the middle
singular value), to be compared with the source's `rbtRot`. -/
def rbtRotMiddleSpec (U Vt : Matrix (Fin 3) (Fin 3) F) : Matrix (Fin 3) (Fin 3) F :=
  U * reflDiagMiddleSpec U Vt * Vt

/-- The translation `t = Bc - np.dot(R, Ac)` (line 3728). -/
def rbtTrans {n : ℕ} (R : Matrix (Fin 3) (Fin 3) F)
    (A B : Matrix (Fin n) (Fin 3) F) : Fin 3 → F :=
  fun j => ptCentroid B j - R.mulVec (ptCentroid A) j

/-- The residual rows `err_vec = np.dot(R, A.T).T + t - B` (line 3729). -/
def rbtErrVec {n : ℕ} (R : Matrix (Fin 3) (Fin 3) F) (t : Fin 3 → F)
    (A B : Matrix (Fin n) (Fin 3) F) : Matrix (Fin n) (Fin 3) F :=
  Matrix.of fun i j => R.mulVec (fun k => A i k) j + t j - B i j

/-- The mean residual norm `np.mean(np.linalg.norm(err_vec, axis=1))`
(lines 3730-3731), with the square root as an oracle parameter. -/
def rbtMeanErrNorm (sqrt : F → F) {n : ℕ} (E : Matrix (Fin n) (Fin 3) F) : F :=
  (∑ i, sqrt (∑ j, E i j ^ 2)) / (n : F)

end KabschMatrix

/-! ### Concrete scenario data (from the specification's §8 checks) -/

/-- The `Fz` samples of the type-2 plate scenario: `[0, 0, 0, 50, 60, 0]`. -/
def exFz : ℕ → ℚ := fun fr => [0, 0, 0, 50, 60, 0].getD fr 0

/-- Concrete raw local forces for the plate scenario (`Fx`, `Fy` arbitrary
nonzero, `Fz` as in the scenario). -/
def exFRaw : ℕ → V3 ℚ := fun fr => ⟨(fr : ℚ) + 1, 2 * (fr : ℚ) + 1, exFz fr⟩

/-- Concrete raw local moments for the plate scenario (arbitrary nonzero). -/
def exMRaw : ℕ → V3 ℚ := fun fr => ⟨3 * (fr : ℚ) + 2, (fr : ℚ) + 5, 7⟩

/-- A concrete stand-in for the square-root oracle in structural checks
(whose outcome does not depend on its values). -/
def sqrtId : ℚ → ℚ := fun x => x

/-- Concrete junk contents for the uninitialized-output parameter. -/
def junk0 : V3 ℚ := ⟨0, 0, 0⟩

/-- A concrete stand-in for the SVD oracle in structural checks. -/
def svdTriv : M3 ℚ → M3 ℚ × V3 ℚ × M3 ℚ := fun C => (M3.diag3 1 1 1, ⟨0, 0, 0⟩, C)

/-- A concrete stand-in for the spline oracle in structural checks. -/
def splineTriv : List ℕ → List ℚ → ℕ → ℚ := fun _ _ _ => 0

/-- An all-valid residual array. -/
def zeroResid : ℕ → ℚ := fun _ => 0

/-- A constant target coordinate array. -/
def cstC : ℕ → V3 ℚ := fun _ => ⟨2, 3, 4⟩

/-- Constant coordinates of the three concrete cluster markers. -/
def cl0C : ℕ → V3 ℚ := fun _ => ⟨0, 0, 0⟩

/-- Second concrete cluster marker. -/
def cl1C : ℕ → V3 ℚ := fun _ => ⟨1, 0, 0⟩

/-- Third concrete cluster marker. -/
def cl2C : ℕ → V3 ℚ := fun _ => ⟨0, 1, 0⟩

/-- The three concrete cluster markers as an indexed family. -/
def clC3 : Fin 3 → ℕ → V3 ℚ := fun i => if i = 0 then cl0C else if i = 1 then cl1C else cl2C

/-- All-valid residuals of the three concrete cluster markers. -/
def clR3 : Fin 3 → ℕ → ℚ := fun _ => zeroResid

/-- A 3-frame trajectory whose only invalid frame is frame `0`, i.e. a
leading boundary gap `{0}`. -/
def bTgtR : ℕ → ℚ := fun fr => if fr = 0 then -1 else 0

/-- The 10-frame scenario residuals: the target is valid exactly at frames
`{0..4, 8..9}` (internal gap `{5,6,7}`). -/
def exTgtR : ℕ → ℚ := fun fr => if 5 ≤ fr ∧ fr ≤ 7 then -1 else 0

/-- Target residuals of the `fill_marker_gap_pattern` check: 9 frames,
invalid exactly at frame `4`. -/
def patTgtR : ℕ → ℚ := fun fr => if fr = 4 then -1 else 0

/-- Donor residuals of the `fill_marker_gap_pattern` check: valid exactly
at frames `{3, 4, 5}`. -/
def patDnrR : ℕ → ℚ := fun fr => if 3 ≤ fr ∧ fr ≤ 5 then 0 else -1

/-- Constant donor coordinates of the `fill_marker_gap_pattern` check. -/
def patDnrC : ℕ → V3 ℚ := fun _ => ⟨5, 6, 7⟩

/-- An 11-frame target with two internal single-frame gaps `{2}` and `{8}`. -/
def wTgtR : ℕ → ℚ := fun fr => if fr = 2 ∨ fr = 8 then -1 else 0

/-- An 11-frame donor invalid exactly at frame `2`: the gap `{2}` is skipped
by `fill_marker_gap_pattern` (donor invalid inside the gap) while the gap
`{8}` is filled. -/
def wDnrR : ℕ → ℚ := fun fr => if fr = 2 then -1 else 0

/-! ## Helper lemmas -/

section Helpers

variable {α : Type} [LinearOrderedField α]

@[simp] theorem V3.add_def (a b : V3 α) : a + b = ⟨a.x + b.x, a.y + b.y, a.z + b.z⟩ := rfl

@[simp] theorem V3.sub_def (a b : V3 α) : a - b = ⟨a.x - b.x, a.y - b.y, a.z - b.z⟩ := rfl

@[simp] theorem V3.smul_def (c : α) (a : V3 α) : c • a = ⟨c * a.x, c * a.y, c * a.z⟩ := rfl

@[simp] theorem V3.zero_def : (0 : V3 α) = ⟨0, 0, 0⟩ := rfl

/-- The `-1` residual sentinel is caught by the `np.isclose` test. -/
theorem validB_neg_one : validB (-1 : α) = false := by
  simp only [validB, isCloseNeg1, Bool.not_eq_false', decide_eq_true_eq]
  rw [abs_neg, abs_one, show (-1 : α) - -1 = 0 by ring, abs_zero]
  positivity

/-- A residual of `0.0` (the value a successful fill writes) is valid. -/
theorem validB_zero : validB (0 : α) = true := by
  simp only [validB, isCloseNeg1, Bool.not_eq_true', decide_eq_false_iff_not, not_le]
  rw [abs_neg, abs_one, show (0 : α) - -1 = 1 by ring, abs_one]
  norm_num

/-- Membership in `trueFrames`. -/
theorem mem_trueFrames {n : ℕ} {p : ℕ → Bool} {fr : ℕ} :
    fr ∈ trueFrames n p ↔ fr < n ∧ p fr = true := by
  simp [trueFrames, List.mem_filter, List.mem_range]

/-- An in-range `getD` access returns an element of the list. -/
theorem getD_mem {l : List ℕ} {i d : ℕ} (h : i < l.length) : l.getD i d ∈ l := by
  rw [List.getD_eq_getElem _ _ h]
  exact List.getElem_mem h

/-- `searchsorted` never exceeds the list length. -/
theorem searchsorted_le_length (xs : List ℕ) (v : ℕ) : searchsorted xs v ≤ xs.length :=
  (List.takeWhile_sublist _).length_le

/-- Monotonicity of filtered length under pointwise implication of the
predicates. -/
theorem length_filter_mono {l : List ℕ} {p q : ℕ → Bool}
    (h : ∀ a ∈ l, p a = true → q a = true) :
    (l.filter p).length ≤ (l.filter q).length := by
  induction l with
  | nil => simp
  | cons a l ih =>
    have ih' := ih fun b hb => h b (List.mem_cons_of_mem a hb)
    by_cases hp : p a = true
    · rw [List.filter_cons_of_pos hp, List.filter_cons_of_pos (h a (List.mem_cons_self a l) hp)]
      simpa using ih'
    · rw [List.filter_cons_of_neg (by simpa using hp)]
      by_cases hq : q a = true
      · rw [List.filter_cons_of_pos hq]
        exact ih'.trans (by simp)
      · rw [List.filter_cons_of_neg (by simpa using hq)]
        exact ih'

/-- `countValid` is monotone under pointwise preservation of validity. -/
theorem countValid_mono {n : ℕ} {r r' : ℕ → α}
    (h : ∀ fr, validB (r fr) = true → validB (r' fr) = true) :
    countValid n r ≤ countValid n r' :=
  length_filter_mono fun a _ => h a

/-! ### Generic fold invariants

The gap-filling loops are `List.foldl` over a step function on the working
state (or on `Option` of it, `none` being an escaped exception).  All the
structural facts we need (untouched frames, residual values, write
conditions) are invariants of the corresponding step functions. -/

/-- Folding an exception-propagating step from an exception stays an
exception. -/
theorem foldl_opt_none {β : Type} (step : Option (GapState α) → β → Option (GapState α))
    (hnone : ∀ b, step none b = none) (l : List β) : l.foldl step none = none := by
  induction l with
  | nil => rfl
  | cons a l ih => rw [List.foldl_cons, hnone]; exact ih

/-- Invariant preservation through an exception-propagating fold. -/
theorem foldl_opt_invariant {β : Type} (step : Option (GapState α) → β → Option (GapState α))
    (l : List β) (Inv : GapState α → Prop)
    (hnone : ∀ b, step none b = none)
    (hstep : ∀ st b, b ∈ l → Inv st → ∀ st', step (some st) b = some st' → Inv st') :
    ∀ st res, Inv st → l.foldl step (some st) = some res → Inv res := by
  induction l with
  | nil => intro st res h hres; rw [List.foldl_nil] at hres; cases hres; exact h
  | cons a l ih =>
    intro st res h hres
    rw [List.foldl_cons] at hres
    rcases hst : step (some st) a with _ | st1
    · rw [hst, foldl_opt_none step hnone] at hres; cases hres
    · rw [hst] at hres
      exact ih (fun st b hb => hstep st b (List.mem_cons_of_mem a hb)) st1 res
        (hstep st a (List.mem_cons_self a l) h st1 hst) hres

/-- Invariant preservation through a plain fold. -/
theorem foldl_invariant {β : Type} (step : GapState α → β → GapState α)
    (l : List β) (Inv : GapState α → Prop)
    (hstep : ∀ st b, b ∈ l → Inv st → Inv (step st b)) :
    ∀ st, Inv st → Inv (l.foldl step st) := by
  induction l with
  | nil => intro st h; exact h
  | cons a l ih =>
    intro st h
    rw [List.foldl_cons]
    exact ih (fun st b hb => hstep st b (List.mem_cons_of_mem a hb)) _
      (hstep st a (List.mem_cons_self a l) h)

/-! ### Structure of the maximal invalid runs -/

/-- `takeWhile` of an arithmetic range is an initial sub-range, with the
predicate holding inside it and (unless it is the whole range) failing just
past its end. -/
theorem takeWhile_range'_spec (p : ℕ → Bool) :
    ∀ (len s : ℕ), ∃ m, (List.range' s len).takeWhile p = List.range' s m ∧ m ≤ len
      ∧ (∀ k, k < m → p (s + k) = true) ∧ (m = len ∨ p (s + m) = false) := by
  intro len
  induction len with
  | zero => intro s; exact ⟨0, rfl, le_refl 0, fun k hk => absurd hk (Nat.not_lt_zero k), .inl rfl⟩
  | succ len ih =>
    intro s
    rw [List.range'_succ s len 1]
    rcases hp : p s with _ | _
    · refine ⟨0, ?_, Nat.zero_le _, fun k hk => absurd hk (Nat.not_lt_zero k), .inr (by simpa)⟩
      rw [List.takeWhile_cons_of_neg (by simpa using hp)]
      rfl
    · obtain ⟨m, hm, hmle, hin, hend⟩ := ih (s + 1)
      refine ⟨m + 1, ?_, Nat.succ_le_succ hmle, ?_, ?_⟩
      · rw [List.takeWhile_cons_of_pos hp, hm, List.range'_succ s m 1]
      · intro k hk
        match k with
        | 0 => simpa using hp
        | k + 1 =>
          have := hin k (Nat.lt_of_succ_lt_succ hk)
          rwa [show s + 1 + k = s + (k + 1) by omega] at this
      · rcases hend with h | h
        · exact .inl (by omega)
        · refine .inr ?_
          rwa [show s + 1 + m = s + (m + 1) by omega] at h

/-- Structure of one maximal run: it is an arithmetic range starting at `s`,
the predicate holds on all of it, and it is maximal on the right. -/
theorem runAt_spec (p : ℕ → Bool) (n s : ℕ) :
    ∃ m, runAt p n s = List.range' s m ∧ m ≤ n - s
      ∧ (∀ k, k < m → p (s + k) = true) ∧ (m = n - s ∨ p (s + m) = false) :=
  takeWhile_range'_spec p (n - s) s

/-- Membership in a maximal run. -/
theorem mem_runAt {p : ℕ → Bool} {n s fr : ℕ} (h : fr ∈ runAt p n s) :
    s ≤ fr ∧ fr < n ∧ p fr = true := by
  obtain ⟨m, hm, hmle, hin, _⟩ := runAt_spec p n s
  rw [hm] at h
  rw [List.mem_range'_1] at h
  refine ⟨h.1, ?_, ?_⟩
  · omega
  · have := hin (fr - s) (by omega)
    rwa [show s + (fr - s) = fr by omega] at this

/-- Membership in `runStarts`. -/
theorem mem_runStarts {p : ℕ → Bool} {n s : ℕ} :
    s ∈ runStarts p n ↔ s < n ∧ p s = true ∧ (s = 0 ∨ p (s - 1) = false) := by
  simp only [runStarts, List.mem_filter, List.mem_range, Bool.and_eq_true, Bool.or_eq_true,
    beq_iff_eq, Bool.not_eq_true'] <;> tauto

/-- Every run returned by `runs` is a maximal run at a start index. -/
theorem mem_runs {p : ℕ → Bool} {n : ℕ} {g : List ℕ} (h : g ∈ runs p n) :
    ∃ s, s ∈ runStarts p n ∧ g = runAt p n s := by
  simp only [runs, List.mem_map] at h
  obtain ⟨s, hs, hg⟩ := h
  exact ⟨s, hs, hg.symm⟩

/-- A run at a genuine start index is nonempty, begins at that index, and
its frames are exactly `[s, s + length)`. -/
theorem runAt_of_start {p : ℕ → Bool} {n s : ℕ}
    (hs : s < n) (hps : p s = true) :
    ∃ m, 0 < m ∧ s + m ≤ n ∧ runAt p n s = List.range' s m ∧ (runAt p n s).headD 0 = s
      ∧ (runAt p n s).getLastD 0 = s + m - 1
      ∧ (∀ k, k < m → p (s + k) = true)
      ∧ (s + m = n ∨ p (s + m) = false) := by
  obtain ⟨m, hm, hmle, hin, hend⟩ := runAt_spec p n s
  have hm0 : 0 < m := by
    rcases Nat.eq_zero_or_pos m with h0 | h0
    · subst h0
      rcases hend with h | h
      · omega
      · rw [Nat.add_zero] at h; rw [hps] at h; cases h
    · exact h0
  have hlast : ∀ (a b : ℕ), (List.range' a (b + 1)).getLastD 0 = a + b := by
    intro a b
    induction b generalizing a with
    | zero => rfl
    | succ b ihb =>
      rw [List.range'_succ a (b + 1) 1, List.getLastD_cons]
      have := ihb (a + 1)
      rcases hr : List.range' (a + 1) (b + 1) with _ | ⟨c, l⟩
      · have : (List.range' (a + 1) (b + 1)).length = 0 := by rw [hr]; rfl
        simp [List.length_range'] at this
      · rw [hr] at this
        rw [List.getLastD_cons] at this ⊢
        omega
  refine ⟨m, hm0, by omega, hm, ?_, ?_, hin, ?_⟩
  · rw [hm]
    obtain ⟨m', rfl⟩ := Nat.exists_eq_succ_of_ne_zero (Nat.pos_iff_ne_zero.mp hm0)
    rw [List.range'_succ s m' 1]
    rfl
  · rw [hm]
    obtain ⟨m', rfl⟩ := Nat.exists_eq_succ_of_ne_zero (Nat.pos_iff_ne_zero.mp hm0)
    rw [hlast]
    omega
  · rcases hend with h | h
    · left; omega
    · right; exact h

/-- Two runs that share a frame are the same run. -/
theorem runs_disjoint {p : ℕ → Bool} {n : ℕ} {g g' : List ℕ} {fr : ℕ}
    (hg : g ∈ runs p n) (hg' : g' ∈ runs p n) (hfr : fr ∈ g) (hfr' : fr ∈ g') :
    g = g' := by
  obtain ⟨s, hs, rfl⟩ := mem_runs hg
  obtain ⟨s', hs', rfl⟩ := mem_runs hg'
  rw [mem_runStarts] at hs hs'
  suffices hss : s = s' by rw [hss]
  by_contra hne
  -- w.l.o.g. s < s'; then p holds on [s, fr] ∋ s' - 1, contradicting the
  -- start condition of s' (and symmetrically).
  have key : ∀ s₁ s₂ : ℕ, s₁ < s₂ → fr ∈ runAt p n s₁ →
      (s₂ < n ∧ p s₂ = true ∧ (s₂ = 0 ∨ p (s₂ - 1) = false)) → fr ∈ runAt p n s₂ → False := by
    intro s₁ s₂ hlt h1 h2 h3
    obtain ⟨m, hm, _, hin, _⟩ := runAt_spec p n s₁
    rw [hm, List.mem_range'_1] at h1
    have hs₂fr : s₂ ≤ fr := (mem_runAt h3).1
    have hp : p (s₂ - 1) = true := by
      have := hin (s₂ - 1 - s₁) (by omega)
      rwa [show s₁ + (s₂ - 1 - s₁) = s₂ - 1 by omega] at this
    rcases h2.2.2 with h0 | h0
    · omega
    · rw [hp] at h0; cases h0
  rcases Nat.lt_or_ge s s' with hlt | hge
  · exact key s s' hlt hfr hs' hfr'
  · exact key s' s (by omega) hfr' hs hfr

/-- A run containing a frame of a leading (resp. trailing) boundary gap
must itself start at frame `0` (resp. end at frame `n-1`).  Here `p` is the
per-frame invalidity predicate. -/
theorem boundary_run_touches {p : ℕ → Bool} {n s fr : ℕ}
    (hs : s ∈ runStarts p n) (hfr : fr ∈ runAt p n s)
    (hbound : (∀ k, k ≤ fr → p k = true) ∨ (∀ k, fr ≤ k → k < n → p k = true)) :
    (runAt p n s).headD 0 = 0 ∨ (runAt p n s).getLastD 0 = n - 1 := by
  rw [mem_runStarts] at hs
  obtain ⟨hsn, hps, hstart⟩ := hs
  obtain ⟨m, hm0, hsmn, hrange, hhead, hlast, hin, hend⟩ := runAt_of_start hsn hps
  rcases hbound with hb | hb
  · left
    rw [hhead]
    by_contra hs0
    have h0 : p (s - 1) = false := by
      rcases hstart with h | h
      · exact absurd h hs0
      · exact h
    have hsfr : s ≤ fr := (mem_runAt hfr).1
    have := hb (s - 1) (by omega)
    rw [this] at h0
    cases h0
  · right
    rw [hlast]
    by_contra hne
    have hfr' : fr < s + m := by
      rw [hrange, List.mem_range'_1] at hfr
      exact hfr.2
    rcases hend with h | h
    · omega
    · have hlt : s + m < n := by omega
      have := hb (s + m) (by omega) hlt
      rw [this] at h
      cases h

/-! ### Step-function case analyses -/

/-- `recoverRbtStep` only touches the loop frame. -/
theorem recoverRbtStep_untouched (allFrs : List ℕ) (matRot : ℕ → M3 α)
    (vec3 p0 : ℕ → V3 α) (st : GapState α) (fr j : ℕ) (h : j ≠ fr) :
    (recoverRbtStep allFrs matRot vec3 p0 st fr).c j = st.c j
      ∧ (recoverRbtStep allFrs matRot vec3 p0 st fr).r j = st.r j := by
  constructor <;> simp [recoverRbtStep, updF, h]

/-- `recoverRbtStep` writes residual `0.0` at the loop frame. -/
theorem recoverRbtStep_r_self (allFrs : List ℕ) (matRot : ℕ → M3 α)
    (vec3 p0 : ℕ → V3 α) (st : GapState α) (fr : ℕ) :
    (recoverRbtStep allFrs matRot vec3 p0 st fr).r fr = 0 := by
  simp [recoverRbtStep, updF]

/-- `fillRbtStep` propagates an exception. -/
theorem fillRbtStep_none (sqrt : α → α) (svd : M3 α → M3 α × V3 α × M3 α) {m : ℕ}
    (clC : Fin m → ℕ → V3 α) (clValid : ℕ → Bool) (allFrs : List ℕ) (fr : ℕ) :
    fillRbtStep sqrt svd clC clValid allFrs none fr = none := rfl

/-- Case analysis of one `fill_marker_gap_rbt` loop iteration: it raises, or
skips the frame, or writes residual `0.0` and a blended position at the
frame, and then the brackets `fr0 < fr < fr1` are jointly-valid frames with
the whole cluster valid over the closed interval `[fr0, fr1]`. -/
theorem fillRbtStep_cases (sqrt : α → α) (svd : M3 α → M3 α × V3 α × M3 α) {m : ℕ}
    (clC : Fin m → ℕ → V3 α) (clValid : ℕ → Bool) (allFrs : List ℕ)
    (st : GapState α) (fr : ℕ) :
    fillRbtStep sqrt svd clC clValid allFrs (some st) fr = none
    ∨ fillRbtStep sqrt svd clC clValid allFrs (some st) fr = some st
    ∨ ∃ fr0 fr1 v, fr0 ∈ allFrs ∧ fr1 ∈ allFrs ∧ fr0 < fr ∧ fr < fr1
        ∧ (∀ k, fr0 ≤ k → k ≤ fr1 → clValid k = true)
        ∧ fillRbtStep sqrt svd clC clValid allFrs (some st) fr
            = some ⟨updF st.c fr v, updF st.r fr 0, true⟩ := by
  by_cases hcrash : searchsorted allFrs fr = 0 ∧ allFrs.length < 2
  · exact .inl (by simp [fillRbtStep, hcrash])
  · set s := searchsorted allFrs fr with hs
    set fr0 := (if s = 0 then allFrs.getD 0 0
      else if s ≥ allFrs.length then allFrs.getD (allFrs.length - 2) 0
      else allFrs.getD (s - 1) 0) with hfr0
    set fr1 := (if s = 0 then allFrs.getD 1 0
      else if s ≥ allFrs.length then allFrs.getD (allFrs.length - 1) 0
      else allFrs.getD s 0) with hfr1
    by_cases hskip : fr ≤ fr0 ∨ fr1 ≤ fr
    · refine .inr (.inl ?_)
      simp only [fillRbtStep, ← hs, ← hfr0, ← hfr1]
      rw [if_neg hcrash, if_pos hskip]
    · by_cases hcl : (! (clValid fr0 && clValid fr1)) = true
      · refine .inr (.inl ?_)
        simp only [fillRbtStep, ← hs, ← hfr0, ← hfr1]
        rw [if_neg hcrash, if_neg hskip, if_pos hcl]
      · by_cases hiv : (! ((List.range' fr0 (fr1 + 1 - fr0)).all clValid)) = true
        · refine .inr (.inl ?_)
          simp only [fillRbtStep, ← hs, ← hfr0, ← hfr1]
          rw [if_neg hcrash, if_neg hskip, if_neg (by simpa using hcl), if_pos hiv]
        · refine .inr (.inr ?_)
          have hslen : s ≤ allFrs.length := searchsorted_le_length allFrs fr
          have hlen : 0 < allFrs.length := by
            rcases Nat.eq_zero_or_pos allFrs.length with h0 | h0
            · exfalso; apply hcrash; omega
            · exact h0
          have hmem0 : fr0 ∈ allFrs := by
            rw [hfr0]
            by_cases h0 : s = 0
            · rw [if_pos h0]; exact getD_mem (by omega)
            · rw [if_neg h0]
              by_cases h1 : s ≥ allFrs.length
              · rw [if_pos h1]; exact getD_mem (by omega)
              · rw [if_neg h1]; exact getD_mem (by omega)
          have hmem1 : fr1 ∈ allFrs := by
            rw [hfr1]
            by_cases h0 : s = 0
            · rw [if_pos h0]
              have : 2 ≤ allFrs.length := by
                by_contra hc; apply hcrash; exact ⟨h0, by omega⟩
              exact getD_mem (by omega)
            · rw [if_neg h0]
              by_cases h1 : s ≥ allFrs.length
              · rw [if_pos h1]; exact getD_mem (by omega)
              · rw [if_neg h1]; exact getD_mem (by omega)
          push_neg at hskip
          have hintv : ∀ k, fr0 ≤ k → k ≤ fr1 → clValid k = true := by
            intro k hk0 hk1
            simp only [Bool.not_eq_true', Bool.not_eq_false] at hiv
            rw [List.all_eq_true] at hiv
            exact hiv k (by rw [List.mem_range'_1]; omega)
          have heq : fillRbtStep sqrt svd clC clValid allFrs (some st) fr
              = some ⟨updF st.c fr (fillRbtVal sqrt svd clC st.c fr0 fr1 fr),
                  updF st.r fr 0, true⟩ := by
            simp only [fillRbtStep, ← hs, ← hfr0, ← hfr1]
            rw [if_neg hcrash, if_neg (by push_neg; exact hskip),
              if_neg (by simpa using hcl), if_neg (by simpa using hiv)]
          exact ⟨fr0, fr1, fillRbtVal sqrt svd clC st.c fr0 fr1 fr,
            hmem0, hmem1, hskip.1, hskip.2, hintv, heq⟩

/-- `patternStep` propagates an exception. -/
theorem patternStep_none (dnrC : ℕ → V3 α) (dnrValid : ℕ → Bool)
    (bothFrs : List ℕ) (fr : ℕ) :
    patternStep dnrC dnrValid bothFrs none fr = none := rfl

/-- Case analysis of one `fill_marker_gap_pattern` inner loop iteration:
it raises, or skips the frame, or writes residual `0.0` and the
pattern-reconstructed position
`interp(target) - interp(donor) + donor(fr)` at the frame, with
donor-valid jointly-valid brackets `fr0 < fr < fr1`. -/
theorem patternStep_cases (dnrC : ℕ → V3 α) (dnrValid : ℕ → Bool)
    (bothFrs : List ℕ) (st : GapState α) (fr : ℕ) :
    patternStep dnrC dnrValid bothFrs (some st) fr = none
    ∨ patternStep dnrC dnrValid bothFrs (some st) fr = some st
    ∨ ∃ fr0 fr1, fr0 ∈ bothFrs ∧ fr1 ∈ bothFrs ∧ fr0 < fr ∧ fr < fr1
        ∧ dnrValid fr0 = true ∧ dnrValid fr1 = true
        ∧ patternStep dnrC dnrValid bothFrs (some st) fr
            = some ⟨updF st.c fr
                ((((fr - fr0 : ℕ) : α) / ((fr1 - fr0 : ℕ) : α)) • (st.c fr1 - st.c fr0)
                    + st.c fr0
                  - ((((fr - fr0 : ℕ) : α) / ((fr1 - fr0 : ℕ) : α)) • (dnrC fr1 - dnrC fr0)
                    + dnrC fr0)
                  + dnrC fr),
                updF st.r fr 0, true⟩ := by
  by_cases hcrash : searchsorted bothFrs fr = 0 ∧ bothFrs.length < 2
  · exact .inl (by simp [patternStep, hcrash])
  · set s := searchsorted bothFrs fr with hs
    set fr0 := (if s = 0 then bothFrs.getD 0 0
      else if s ≥ bothFrs.length then bothFrs.getD (bothFrs.length - 2) 0
      else bothFrs.getD (s - 1) 0) with hfr0
    set fr1 := (if s = 0 then bothFrs.getD 1 0
      else if s ≥ bothFrs.length then bothFrs.getD (bothFrs.length - 1) 0
      else bothFrs.getD s 0) with hfr1
    by_cases hskip : fr ≤ fr0 ∨ fr1 ≤ fr
    · refine .inr (.inl ?_)
      simp only [patternStep, ← hs, ← hfr0, ← hfr1]
      rw [if_neg hcrash, if_pos hskip]
    · by_cases hdn : (! (dnrValid fr0 && dnrValid fr1)) = true
      · refine .inr (.inl ?_)
        simp only [patternStep, ← hs, ← hfr0, ← hfr1]
        rw [if_neg hcrash, if_neg hskip, if_pos hdn]
      · refine .inr (.inr ?_)
        have hslen : s ≤ bothFrs.length := searchsorted_le_length bothFrs fr
        have hlen : 0 < bothFrs.length := by
          rcases Nat.eq_zero_or_pos bothFrs.length with h0 | h0
          · exfalso; apply hcrash; omega
          · exact h0
        have hmem0 : fr0 ∈ bothFrs := by
          rw [hfr0]
          by_cases h0 : s = 0
          · rw [if_pos h0]; exact getD_mem (by omega)
          · rw [if_neg h0]
            by_cases h1 : s ≥ bothFrs.length
            · rw [if_pos h1]; exact getD_mem (by omega)
            · rw [if_neg h1]; exact getD_mem (by omega)
        have hmem1 : fr1 ∈ bothFrs := by
          rw [hfr1]
          by_cases h0 : s = 0
          · rw [if_pos h0]
            have : 2 ≤ bothFrs.length := by
              by_contra hc; apply hcrash; exact ⟨h0, by omega⟩
            exact getD_mem (by omega)
          · rw [if_neg h0]
            by_cases h1 : s ≥ bothFrs.length
            · rw [if_pos h1]; exact getD_mem (by omega)
            · rw [if_neg h1]; exact getD_mem (by omega)
        simp only [Bool.not_eq_true', Bool.not_eq_false, Bool.and_eq_true] at hdn
        push_neg at hskip
        refine ⟨fr0, fr1, hmem0, hmem1, hskip.1, hskip.2, hdn.1, hdn.2, ?_⟩
        simp only [patternStep, ← hs, ← hfr0, ← hfr1]
        rw [if_neg hcrash, if_neg (by push_neg; exact hskip),
          if_neg (by simp [hdn.1, hdn.2])]

/-- `patternProcessGap` propagates an exception. -/
theorem patternProcessGap_none (n : ℕ) (dnrC : ℕ → V3 α) (tgtValid dnrValid : ℕ → Bool)
    (off minNeeded : ℕ) (g : List ℕ) :
    patternProcessGap n dnrC tgtValid dnrValid off minNeeded none g = none := rfl

/-- Case analysis of one gap of `fill_marker_gap_pattern`: either one of the
four skip conditions holds and the state is untouched, or all checks pass
and the gap is handed to the frame loop. -/
theorem patternProcessGap_cases (n : ℕ) (dnrC : ℕ → V3 α) (tgtValid dnrValid : ℕ → Bool)
    (off minNeeded : ℕ) (st : GapState α) (g : List ℕ) :
    patternProcessGap n dnrC tgtValid dnrValid off minNeeded (some st) g = some st
    ∨ (g.isEmpty = false ∧ g.headD 0 ≠ 0 ∧ g.getLastD 0 ≠ n - 1
        ∧ minNeeded ≤ (trueFrames n (gapCand n off tgtValid g)).length
        ∧ (∀ fr ∈ g, dnrValid fr = true)
        ∧ patternProcessGap n dnrC tgtValid dnrValid off minNeeded (some st) g
            = g.foldl (patternStep dnrC dnrValid
                (trueFrames n fun i => gapCand n off tgtValid g i && dnrValid i)) (some st)) := by
  by_cases h1 : g.isEmpty = true
  · left; simp only [patternProcessGap]; rw [if_pos h1]
  · by_cases h2 : g.headD 0 = 0 ∨ g.getLastD 0 = n - 1
    · left; simp only [patternProcessGap]; rw [if_neg (by simpa using h1), if_pos h2]
    · by_cases h3 : (trueFrames n (gapCand n off tgtValid g)).length < minNeeded
      · left
        simp only [patternProcessGap]
        rw [if_neg (by simpa using h1), if_neg h2, if_pos h3]
      · by_cases h4 : g.any (fun fr => ! dnrValid fr) = true
        · left
          simp only [patternProcessGap]
          rw [if_neg (by simpa using h1), if_neg h2, if_neg h3, if_pos h4]
        · right
          push_neg at h2
          refine ⟨by simpa using h1, h2.1, h2.2, by omega, ?_, ?_⟩
          · intro fr hfr
            rw [List.any_eq_true] at h4
            push_neg at h4
            have := h4 fr hfr
            simpa using this
          · simp only [patternProcessGap]
            rw [if_neg (by simpa using h1), if_neg (by push_neg; exact h2), if_neg h3,
              if_neg h4]

/-- `interpProcessGap` propagates an exception. -/
theorem interpProcessGap_none (spline : List ℕ → List α → ℕ → α) (n : ℕ)
    (tgtValid : ℕ → Bool) (k off minNeeded : ℕ) (g : List ℕ) :
    interpProcessGap spline n tgtValid k off minNeeded none g = none := rfl

/-- Case analysis of one gap of `fill_marker_gap_interp`: a skip, a SciPy
constructor error, or the write loop over the gap with the `b_updated`
flag set. -/
theorem interpProcessGap_cases (spline : List ℕ → List α → ℕ → α) (n : ℕ)
    (tgtValid : ℕ → Bool) (k off minNeeded : ℕ) (st : GapState α) (g : List ℕ) :
    interpProcessGap spline n tgtValid k off minNeeded (some st) g = some st
    ∨ interpProcessGap spline n tgtValid k off minNeeded (some st) g = none
    ∨ (g.isEmpty = false ∧ g.headD 0 ≠ 0 ∧ g.getLastD 0 ≠ n - 1
        ∧ minNeeded ≤ (trueFrames n (gapCand n off tgtValid g)).length
        ∧ ∃ fx fy fz : ℕ → α,
          interpProcessGap spline n tgtValid k off minNeeded (some st) g
            = some ⟨(g.foldl (interpWriteStep fx fy fz) st).c,
                (g.foldl (interpWriteStep fx fy fz) st).r, true⟩) := by
  by_cases h1 : g.isEmpty = true
  · left; simp only [interpProcessGap]; rw [if_pos h1]
  · by_cases h2 : g.headD 0 = 0 ∨ g.getLastD 0 = n - 1
    · left; simp only [interpProcessGap]; rw [if_neg (by simpa using h1), if_pos h2]
    · by_cases h3 : (trueFrames n (gapCand n off tgtValid g)).length < minNeeded
      · left
        simp only [interpProcessGap]
        rw [if_neg (by simpa using h1), if_neg h2, if_pos h3]
      · by_cases h4 : k < 1 ∨ 5 < k ∨ (trueFrames n (gapCand n off tgtValid g)).length ≤ k
        · right; left
          simp only [interpProcessGap]
          rw [if_neg (by simpa using h1), if_neg h2, if_neg h3, if_pos h4]
        · right; right
          push_neg at h2
          refine ⟨by simpa using h1, h2.1, h2.2, by omega,
            spline (trueFrames n (gapCand n off tgtValid g))
              ((trueFrames n (gapCand n off tgtValid g)).map fun f => (st.c f).x),
            spline (trueFrames n (gapCand n off tgtValid g))
              ((trueFrames n (gapCand n off tgtValid g)).map fun f => (st.c f).y),
            spline (trueFrames n (gapCand n off tgtValid g))
              ((trueFrames n (gapCand n off tgtValid g)).map fun f => (st.c f).z), ?_⟩
          simp only [interpProcessGap]
          rw [if_neg (by simpa using h1), if_neg (by push_neg; exact h2), if_neg h3,
            if_neg h4]

/-- `interpWriteStep` only touches the loop frame, where it writes residual `0.0`. -/
theorem interpWriteStep_spec (fx fy fz : ℕ → α) (st : GapState α) (fr j : ℕ) :
    ((interpWriteStep fx fy fz st fr).r fr = 0)
      ∧ (j ≠ fr → (interpWriteStep fx fy fz st fr).c j = st.c j
          ∧ (interpWriteStep fx fy fz st fr).r j = st.r j) := by
  refine ⟨by simp [interpWriteStep, updF], fun h => ⟨?_, ?_⟩⟩ <;>
    simp [interpWriteStep, updF, h]

/-- A successful `fillRbtStep` iteration leaves every frame other than the
loop frame untouched. -/
theorem fillRbtStep_untouched (sqrt : α → α) (svd : M3 α → M3 α × V3 α × M3 α) {m : ℕ}
    (clC : Fin m → ℕ → V3 α) (clValid : ℕ → Bool) (allFrs : List ℕ)
    (st st' : GapState α) (b fr : ℕ) (hne : fr ≠ b)
    (heq : fillRbtStep sqrt svd clC clValid allFrs (some st) b = some st') :
    st'.c fr = st.c fr ∧ st'.r fr = st.r fr := by
  rcases fillRbtStep_cases sqrt svd clC clValid allFrs st b with hc | hc |
    ⟨fr0, fr1, v, _, _, _, _, _, hc⟩ <;> rw [hc] at heq
  · cases heq
  · injection heq with h; subst h; exact ⟨rfl, rfl⟩
  · injection heq with h
    subst h
    exact ⟨by simp [updF, hne], by simp [updF, hne]⟩

/-- A successful `patternStep` iteration leaves every frame other than the
loop frame untouched. -/
theorem patternStep_untouched (dnrC : ℕ → V3 α) (dnrValid : ℕ → Bool) (bothFrs : List ℕ)
    (st st' : GapState α) (b fr : ℕ) (hne : fr ≠ b)
    (heq : patternStep dnrC dnrValid bothFrs (some st) b = some st') :
    st'.c fr = st.c fr ∧ st'.r fr = st.r fr := by
  rcases patternStep_cases dnrC dnrValid bothFrs st b with hc | hc |
    ⟨fr0, fr1, _, _, _, _, _, _, hc⟩ <;> rw [hc] at heq
  · cases heq
  · injection heq with h; subst h; exact ⟨rfl, rfl⟩
  · injection heq with h
    subst h
    exact ⟨by simp [updF, hne], by simp [updF, hne]⟩

/-- The inner frame loop of `fill_marker_gap_pattern` leaves frames outside
the gap untouched. -/
theorem patternFold_untouched (dnrC : ℕ → V3 α) (dnrValid : ℕ → Bool) (bothFrs : List ℕ)
    (g : List ℕ) (fr : ℕ) (hfr : fr ∉ g) (st st' : GapState α)
    (heq : g.foldl (patternStep dnrC dnrValid bothFrs) (some st) = some st') :
    st'.c fr = st.c fr ∧ st'.r fr = st.r fr :=
  foldl_opt_invariant _ g (fun st2 => st2.c fr = st.c fr ∧ st2.r fr = st.r fr)
    (patternStep_none _ _ _)
    (fun st2 b hb hInv st2' heq2 => by
      have hne : fr ≠ b := fun h => hfr (h ▸ hb)
      obtain ⟨hc, hr⟩ := patternStep_untouched dnrC dnrValid bothFrs st2 st2' b fr hne heq2
      exact ⟨hc.trans hInv.1, hr.trans hInv.2⟩)
    st st' ⟨rfl, rfl⟩ heq

/-- One `patternProcessGap` leaves frames outside its gap untouched. -/
theorem patternProcessGap_untouched (n : ℕ) (dnrC : ℕ → V3 α)
    (tgtValid dnrValid : ℕ → Bool) (off minNeeded : ℕ) (g : List ℕ) (fr : ℕ)
    (hfr : fr ∉ g) (st st' : GapState α)
    (heq : patternProcessGap n dnrC tgtValid dnrValid off minNeeded (some st) g
      = some st') :
    st'.c fr = st.c fr ∧ st'.r fr = st.r fr := by
  rcases patternProcessGap_cases n dnrC tgtValid dnrValid off minNeeded st g with hc |
    ⟨_, _, _, _, _, hc⟩ <;> rw [hc] at heq
  · injection heq with h; subst h; exact ⟨rfl, rfl⟩
  · exact patternFold_untouched _ _ _ g fr hfr st st' heq

/-- The write loop of `fill_marker_gap_interp` leaves frames outside the
gap untouched. -/
theorem interpFold_untouched (fx fy fz : ℕ → α) (g : List ℕ) (fr : ℕ) (hfr : fr ∉ g)
    (st : GapState α) :
    (g.foldl (interpWriteStep fx fy fz) st).c fr = st.c fr
      ∧ (g.foldl (interpWriteStep fx fy fz) st).r fr = st.r fr :=
  foldl_invariant _ g (fun st2 => st2.c fr = st.c fr ∧ st2.r fr = st.r fr)
    (fun st2 b hb hInv => by
      have hne : fr ≠ b := fun h => hfr (h ▸ hb)
      obtain ⟨hc, hr⟩ := (interpWriteStep_spec fx fy fz st2 b fr).2 hne
      exact ⟨hc.trans hInv.1, hr.trans hInv.2⟩)
    st ⟨rfl, rfl⟩

/-- One `interpProcessGap` leaves frames outside its gap untouched. -/
theorem interpProcessGap_untouched (spline : List ℕ → List α → ℕ → α) (n : ℕ)
    (tgtValid : ℕ → Bool) (k off minNeeded : ℕ) (g : List ℕ) (fr : ℕ) (hfr : fr ∉ g)
    (st st' : GapState α)
    (heq : interpProcessGap spline n tgtValid k off minNeeded (some st) g = some st') :
    st'.c fr = st.c fr ∧ st'.r fr = st.r fr := by
  rcases interpProcessGap_cases spline n tgtValid k off minNeeded st g with hc | hc |
    ⟨_, _, _, _, fx, fy, fz, hc⟩ <;> rw [hc] at heq
  · injection heq with h; subst h; exact ⟨rfl, rfl⟩
  · cases heq
  · injection heq with h
    subst h
    exact interpFold_untouched fx fy fz g fr hfr st

/-! ### Conservation invariants of the strategies

`InvKeep tgtC tgtR st` says the working state still agrees with the
original data on every valid target frame, and that every residual is
either untouched or the recovery value `0.0`.  Every strategy loop
preserves it, because writes only happen at target-invalid frames and only
write residual `0.0`. -/

/-- `recoverRbtStep` preserves the conservation invariant when the loop
frame is target-invalid. -/
theorem recoverRbtStep_keeps (allFrs : List ℕ) (matRot : ℕ → M3 α)
    (vec3 p0 : ℕ → V3 α) (tgtC : ℕ → V3 α) (tgtR : ℕ → α)
    (st : GapState α) (fr : ℕ) (hfr : validB (tgtR fr) = false)
    (h1 : ∀ j, validB (tgtR j) = true → st.c j = tgtC j ∧ st.r j = tgtR j)
    (h2 : ∀ j, st.r j = tgtR j ∨ st.r j = 0) :
    (∀ j, validB (tgtR j) = true →
      (recoverRbtStep allFrs matRot vec3 p0 st fr).c j = tgtC j
        ∧ (recoverRbtStep allFrs matRot vec3 p0 st fr).r j = tgtR j)
    ∧ (∀ j, (recoverRbtStep allFrs matRot vec3 p0 st fr).r j = tgtR j
        ∨ (recoverRbtStep allFrs matRot vec3 p0 st fr).r j = 0) := by
  constructor
  · intro j hj
    have hne : j ≠ fr := fun h => by rw [h, hfr] at hj; cases hj
    obtain ⟨hc, hr⟩ := recoverRbtStep_untouched allFrs matRot vec3 p0 st fr j hne
    rw [hc, hr]
    exact h1 j hj
  · intro j
    by_cases hne : j = fr
    · subst hne
      exact .inr (recoverRbtStep_r_self allFrs matRot vec3 p0 st j)
    · rw [(recoverRbtStep_untouched allFrs matRot vec3 p0 st fr j hne).2]
      exact h2 j

/-- The whole frame loop of `recover_marker_rbt` preserves the conservation
invariant when all loop frames are target-invalid. -/
theorem recoverRbtFill_keeps (sqrt : α → α) (junk : V3 α) (n : ℕ)
    (tgtC : ℕ → V3 α) (tgtR : ℕ → α) (c0 c1 c2 : ℕ → V3 α)
    (allFrs clOnlyFrs : List ℕ)
    (hl : ∀ fr ∈ clOnlyFrs, validB (tgtR fr) = false) :
    (∀ j, validB (tgtR j) = true →
      (recoverRbtFill sqrt junk n tgtC tgtR c0 c1 c2 allFrs clOnlyFrs).c j = tgtC j
        ∧ (recoverRbtFill sqrt junk n tgtC tgtR c0 c1 c2 allFrs clOnlyFrs).r j = tgtR j)
    ∧ (∀ j, (recoverRbtFill sqrt junk n tgtC tgtR c0 c1 c2 allFrs clOnlyFrs).r j = tgtR j
        ∨ (recoverRbtFill sqrt junk n tgtC tgtR c0 c1 c2 allFrs clOnlyFrs).r j = 0) := by
  simp only [recoverRbtFill]
  exact foldl_invariant _ clOnlyFrs
    (fun st => (∀ j, validB (tgtR j) = true → st.c j = tgtC j ∧ st.r j = tgtR j)
      ∧ (∀ j, st.r j = tgtR j ∨ st.r j = 0))
    (fun st fr hfr hInv =>
      recoverRbtStep_keeps _ _ _ _ tgtC tgtR st fr (hl fr hfr) hInv.1 hInv.2)
    ⟨tgtC, tgtR, false⟩ ⟨fun j _ => ⟨rfl, rfl⟩, fun j => .inl rfl⟩

/-- One `fillRbtStep` preserves the conservation invariant when the loop
frame is target-invalid. -/
theorem fillRbtStep_keeps (sqrt : α → α) (svd : M3 α → M3 α × V3 α × M3 α) {m : ℕ}
    (clC : Fin m → ℕ → V3 α) (clValid : ℕ → Bool) (allFrs : List ℕ)
    (tgtC : ℕ → V3 α) (tgtR : ℕ → α)
    (st : GapState α) (fr : ℕ) (hfr : validB (tgtR fr) = false)
    (h1 : ∀ j, validB (tgtR j) = true → st.c j = tgtC j ∧ st.r j = tgtR j)
    (h2 : ∀ j, st.r j = tgtR j ∨ st.r j = 0)
    (st' : GapState α)
    (heq : fillRbtStep sqrt svd clC clValid allFrs (some st) fr = some st') :
    (∀ j, validB (tgtR j) = true → st'.c j = tgtC j ∧ st'.r j = tgtR j)
    ∧ (∀ j, st'.r j = tgtR j ∨ st'.r j = 0) := by
  rcases fillRbtStep_cases sqrt svd clC clValid allFrs st fr with hc | hc |
    ⟨fr0, fr1, v, _, _, _, _, _, hc⟩
  · rw [hc] at heq; cases heq
  · rw [hc] at heq
    injection heq with heq'
    subst heq'
    exact ⟨h1, h2⟩
  · rw [hc] at heq
    injection heq with heq'
    subst heq'
    constructor
    · intro j hj
      have hne : j ≠ fr := fun h => by rw [h, hfr] at hj; cases hj
      simp only [updF, if_neg hne]
      exact h1 j hj
    · intro j
      by_cases hne : j = fr
      · subst hne; simp [updF]
      · simp only [updF, if_neg hne]
        exact h2 j

/-- One `patternStep` preserves the conservation invariant when the loop
frame is target-invalid. -/
theorem patternStep_keeps (dnrC : ℕ → V3 α) (dnrValid : ℕ → Bool) (bothFrs : List ℕ)
    (tgtC : ℕ → V3 α) (tgtR : ℕ → α)
    (st : GapState α) (fr : ℕ) (hfr : validB (tgtR fr) = false)
    (h1 : ∀ j, validB (tgtR j) = true → st.c j = tgtC j ∧ st.r j = tgtR j)
    (h2 : ∀ j, st.r j = tgtR j ∨ st.r j = 0)
    (st' : GapState α)
    (heq : patternStep dnrC dnrValid bothFrs (some st) fr = some st') :
    (∀ j, validB (tgtR j) = true → st'.c j = tgtC j ∧ st'.r j = tgtR j)
    ∧ (∀ j, st'.r j = tgtR j ∨ st'.r j = 0) := by
  rcases patternStep_cases dnrC dnrValid bothFrs st fr with hc | hc |
    ⟨fr0, fr1, _, _, _, _, _, _, hc⟩
  · rw [hc] at heq; cases heq
  · rw [hc] at heq
    injection heq with heq'
    subst heq'
    exact ⟨h1, h2⟩
  · rw [hc] at heq
    injection heq with heq'
    subst heq'
    constructor
    · intro j hj
      have hne : j ≠ fr := fun h => by rw [h, hfr] at hj; cases hj
      simp only [updF, if_neg hne]
      exact h1 j hj
    · intro j
      by_cases hne : j = fr
      · subst hne; simp [updF]
      · simp only [updF, if_neg hne]
        exact h2 j

/-- The frame loop of `fill_marker_gap_rbt` (over the cluster-only-valid
frames) preserves the conservation invariant. -/
theorem fillRbt_fold_keeps (sqrt : α → α) (svd : M3 α → M3 α × V3 α × M3 α) {m : ℕ}
    (clC : Fin m → ℕ → V3 α) (clValid : ℕ → Bool) (allFrs : List ℕ)
    (tgtC : ℕ → V3 α) (tgtR : ℕ → α) (l : List ℕ)
    (hl : ∀ fr ∈ l, validB (tgtR fr) = false) (st res : GapState α)
    (h1 : ∀ j, validB (tgtR j) = true → st.c j = tgtC j ∧ st.r j = tgtR j)
    (h2 : ∀ j, st.r j = tgtR j ∨ st.r j = 0)
    (hres : l.foldl (fillRbtStep sqrt svd clC clValid allFrs) (some st) = some res) :
    (∀ j, validB (tgtR j) = true → res.c j = tgtC j ∧ res.r j = tgtR j)
    ∧ (∀ j, res.r j = tgtR j ∨ res.r j = 0) :=
  foldl_opt_invariant _ l
    (fun st => (∀ j, validB (tgtR j) = true → st.c j = tgtC j ∧ st.r j = tgtR j)
      ∧ (∀ j, st.r j = tgtR j ∨ st.r j = 0))
    (fun fr => fillRbtStep_none sqrt svd clC clValid allFrs fr)
    (fun st fr hfr hInv st' heq =>
      fillRbtStep_keeps sqrt svd clC clValid allFrs tgtC tgtR st fr (hl fr hfr)
        hInv.1 hInv.2 st' heq)
    st res ⟨h1, h2⟩ hres

/-- One `patternProcessGap` preserves the conservation invariant when the
gap consists of target-invalid frames. -/
theorem patternProcessGap_keeps (n : ℕ) (dnrC : ℕ → V3 α) (tgtValid dnrValid : ℕ → Bool)
    (off minNeeded : ℕ) (tgtC : ℕ → V3 α) (tgtR : ℕ → α)
    (st : GapState α) (g : List ℕ) (hg : ∀ fr ∈ g, validB (tgtR fr) = false)
    (h1 : ∀ j, validB (tgtR j) = true → st.c j = tgtC j ∧ st.r j = tgtR j)
    (h2 : ∀ j, st.r j = tgtR j ∨ st.r j = 0)
    (st' : GapState α)
    (heq : patternProcessGap n dnrC tgtValid dnrValid off minNeeded (some st) g
      = some st') :
    (∀ j, validB (tgtR j) = true → st'.c j = tgtC j ∧ st'.r j = tgtR j)
    ∧ (∀ j, st'.r j = tgtR j ∨ st'.r j = 0) := by
  rcases patternProcessGap_cases n dnrC tgtValid dnrValid off minNeeded st g with hc |
    ⟨_, _, _, _, _, hc⟩
  · rw [hc] at heq
    injection heq with heq'
    subst heq'
    exact ⟨h1, h2⟩
  · rw [hc] at heq
    exact foldl_opt_invariant _ g
      (fun st => (∀ j, validB (tgtR j) = true → st.c j = tgtC j ∧ st.r j = tgtR j)
        ∧ (∀ j, st.r j = tgtR j ∨ st.r j = 0))
      (fun fr => patternStep_none _ _ _ fr)
      (fun st2 fr hfr hInv st2' heq2 =>
        patternStep_keeps _ _ _ tgtC tgtR st2 fr (hg fr hfr) hInv.1 hInv.2 st2' heq2)
      st st' ⟨h1, h2⟩ heq

/-- One `interpProcessGap` preserves the conservation invariant when the
gap consists of target-invalid frames. -/
theorem interpProcessGap_keeps (spline : List ℕ → List α → ℕ → α) (n : ℕ)
    (tgtValid : ℕ → Bool) (k off minNeeded : ℕ) (tgtC : ℕ → V3 α) (tgtR : ℕ → α)
    (st : GapState α) (g : List ℕ) (hg : ∀ fr ∈ g, validB (tgtR fr) = false)
    (h1 : ∀ j, validB (tgtR j) = true → st.c j = tgtC j ∧ st.r j = tgtR j)
    (h2 : ∀ j, st.r j = tgtR j ∨ st.r j = 0)
    (st' : GapState α)
    (heq : interpProcessGap spline n tgtValid k off minNeeded (some st) g = some st') :
    (∀ j, validB (tgtR j) = true → st'.c j = tgtC j ∧ st'.r j = tgtR j)
    ∧ (∀ j, st'.r j = tgtR j ∨ st'.r j = 0) := by
  rcases interpProcessGap_cases spline n tgtValid k off minNeeded st g with hc | hc |
    ⟨_, _, _, _, fx, fy, fz, hc⟩
  · rw [hc] at heq
    injection heq with heq'
    subst heq'
    exact ⟨h1, h2⟩
  · rw [hc] at heq; cases heq
  · rw [hc] at heq
    injection heq with heq'
    subst heq'
    have := foldl_invariant (interpWriteStep fx fy fz) g
      (fun st => (∀ j, validB (tgtR j) = true → st.c j = tgtC j ∧ st.r j = tgtR j)
        ∧ (∀ j, st.r j = tgtR j ∨ st.r j = 0))
      (fun st2 fr hfr hInv => by
        constructor
        · intro j hj
          have hne : j ≠ fr := fun h => by
            rw [h, hg fr hfr] at hj; cases hj
          obtain ⟨hc', hr'⟩ := (interpWriteStep_spec fx fy fz st2 fr j).2 hne
          rw [hc', hr']
          exact hInv.1 j hj
        · intro j
          by_cases hne : j = fr
          · subst hne
            exact .inr (interpWriteStep_spec fx fy fz st2 j j).1
          · rw [((interpWriteStep_spec fx fy fz st2 fr j).2 hne).2]
            exact hInv.2 j)
      st ⟨h1, h2⟩
    exact this

/-! ### Concrete evaluations used by witnesses and counterexamples -/

/-- `recover_marker_rel` on the 3-frame trajectory with the leading
boundary gap `{0}` and an all-valid cluster: it runs, reports `(True, 3)`,
and writes residual `0.0` into frame `0` (which lies in a boundary gap). -/
theorem rel_boundary_eval :
    (recover_marker_rel sqrtId junk0 3 cstC bTgtR cl0C cl1C cl2C zeroResid zeroResid
        zeroResid).updated = true
    ∧ (recover_marker_rel sqrtId junk0 3 cstC bTgtR cl0C cl1C cl2C zeroResid zeroResid
        zeroResid).nValid = 3
    ∧ ((recover_marker_rel sqrtId junk0 3 cstC bTgtR cl0C cl1C cl2C zeroResid zeroResid
        zeroResid).wr.map fun w => w.resid 0) = some 0 := by
  refine ⟨?_, ?_, ?_⟩ <;>
    simp [recover_marker_rel, countValid, validFrames, trueFrames, List.range_succ,
      bTgtR, zeroResid, validB_neg_one, validB_zero, updF]

/-- Strategy A on the 10-frame scenario (gap `{5,6,7}`, all-valid cluster):
returns `(True, 10)` and writes residual `0.0` at frames 5, 6, 7, for every
coordinate content and every value of the oracles. -/
theorem rel_scenario_eval (sq : ℚ → ℚ) (jk : V3 ℚ) (tC c0 c1 c2 : ℕ → V3 ℚ) :
    (recover_marker_rel sq jk 10 tC exTgtR c0 c1 c2 zeroResid zeroResid
        zeroResid).updated = true
    ∧ (recover_marker_rel sq jk 10 tC exTgtR c0 c1 c2 zeroResid zeroResid
        zeroResid).nValid = 10
    ∧ ((recover_marker_rel sq jk 10 tC exTgtR c0 c1 c2 zeroResid zeroResid
        zeroResid).wr.map fun w => (w.resid 5, w.resid 6, w.resid 7)) = some (0, 0, 0) := by
  refine ⟨?_, ?_, ?_⟩ <;>
    simp [recover_marker_rel, countValid, validFrames, trueFrames, List.range_succ,
      exTgtR, zeroResid, validB_neg_one, validB_zero, updF]

/-- Strategy B on the 10-frame scenario: returns `(True, 10)` and writes
residual `0.0` at frames 5, 6, 7. -/
theorem rbt_scenario_eval (sq : ℚ → ℚ) (jk : V3 ℚ) (tC c0 c1 c2 : ℕ → V3 ℚ) :
    (recover_marker_rbt sq jk 10 tC exTgtR c0 c1 c2 zeroResid zeroResid
        zeroResid).updated = true
    ∧ (recover_marker_rbt sq jk 10 tC exTgtR c0 c1 c2 zeroResid zeroResid
        zeroResid).nValid = 10
    ∧ ((recover_marker_rbt sq jk 10 tC exTgtR c0 c1 c2 zeroResid zeroResid
        zeroResid).wr.map fun w => (w.resid 5, w.resid 6, w.resid 7)) = some (0, 0, 0) := by
  refine ⟨?_, ?_, ?_⟩ <;>
    simp [recover_marker_rbt, recoverRbtFill, recoverRbtStep, countValid, validFrames,
      trueFrames, List.range_succ, exTgtR, zeroResid, validB_neg_one, validB_zero, updF,
      searchsorted]

/-- Strategy C on the 10-frame scenario: returns `some (True, 10)` and
writes residual `0.0` at frames 5, 6, 7, for every coordinate content and
every value of the SVD oracle. -/
theorem fillRbt_scenario_eval (sq : ℚ → ℚ) (svd : M3 ℚ → M3 ℚ × V3 ℚ × M3 ℚ)
    (tC : ℕ → V3 ℚ) (cC : Fin 3 → ℕ → V3 ℚ) :
    ((fill_marker_gap_rbt sq svd 10 tC exTgtR 3 cC clR3).map fun res =>
        (res.updated, res.nValid)) = some (true, 10)
    ∧ ((fill_marker_gap_rbt sq svd 10 tC exTgtR 3 cC clR3).bind fun res =>
        res.wr.map fun w => (w.resid 5, w.resid 6, w.resid 7)) = some (0, 0, 0) := by
  constructor <;>
    simp [fill_marker_gap_rbt, fillRbtStep, countValid, validFrames, trueFrames,
      List.range_succ, List.range', exTgtR, clR3, zeroResid, validB_neg_one, validB_zero,
      updF, searchsorted]

/-- The `fill_marker_gap_pattern` check: 9 frames, target invalid exactly
at frame 4, donor valid exactly at `{3,4,5}`, `search_span_offset = 1`,
`min_needed_frs = 3`.  Only 2 jointly-valid target+donor frames exist in
the search window, yet the strategy fills frame 4 (returning `(True, 9)`)
because the code counts target-valid frames only. -/
theorem pattern_cex_eval :
    ((fill_marker_gap_pattern 9 cstC patTgtR patDnrC patDnrR 1 3).map fun res =>
        (res.updated, res.nValid)) = some (true, 9)
    ∧ ((fill_marker_gap_pattern 9 cstC patTgtR patDnrC patDnrR 1 3).bind fun res =>
        res.wr.map fun w => w.resid 4) = some 0
    ∧ (trueFrames 9 fun i => gapCand 9 1 (fun fr => validB (patTgtR fr)) [4] i
        && validB (patDnrR i)).length = 2
    ∧ runs (fun fr => ! validB (patTgtR fr)) 9 = [[4]] := by
  refine ⟨?_, ?_, ?_, ?_⟩ <;>
    simp [fill_marker_gap_pattern, patternProcessGap, patternStep, runs, runStarts, runAt,
      windowMask, gapWindow, gapCand, trueFrames, countValid, validFrames, List.range_succ,
      List.range', List.takeWhile, updF, searchsorted, patTgtR, patDnrR, validB_neg_one,
      validB_zero]

/-- The two-gap `fill_marker_gap_pattern` check: 11 frames, target invalid
exactly at `{2}` and `{8}`, donor invalid exactly at frame `2`,
`search_span_offset = 1`, `min_needed_frs = 1`.  The gap `{2}` is skipped
(donor invalid inside it, frame 2 keeps the `-1` sentinel) while the gap
`{8}` is filled with residual `0.0`. -/
theorem pattern_two_gap_eval :
    ((fill_marker_gap_pattern 11 cstC wTgtR patDnrC wDnrR 1 1).map fun res =>
        (res.updated, res.nValid)) = some (true, 10)
    ∧ ((fill_marker_gap_pattern 11 cstC wTgtR patDnrC wDnrR 1 1).bind fun res =>
        res.wr.map fun w => (w.resid 2, w.resid 8)) = some (-1, 0)
    ∧ runs (fun fr => ! validB (wTgtR fr)) 11 = [[2], [8]] := by
  refine ⟨?_, ?_, ?_⟩ <;>
    simp [fill_marker_gap_pattern, patternProcessGap, patternStep, runs, runStarts, runAt,
      windowMask, gapWindow, gapCand, trueFrames, countValid, validFrames, List.range_succ,
      List.range', List.takeWhile, updF, searchsorted, wTgtR, wDnrR, validB_neg_one,
      validB_zero]

end Helpers

/-! ## Claim theorems -/

/-- C1. For every fill strategy and every target trajectory of `n` frames:
with zero valid target frames the call returns `(False, 0)`, and with all
`n` frames valid it returns `(False, n)`; in both cases no session
write-back happens (the `wr` component is `none`), so all data is left
unmodified. -/
theorem C1_trivial_guards :
    ∀ (α : Type) [LinearOrderedField α], ∀ (sqrt : α → α) (junk : V3 α)
      (svd : M3 α → M3 α × V3 α × M3 α) (spline : List ℕ → List α → ℕ → α)
      (n : ℕ) (tgtC : ℕ → V3 α) (tgtR : ℕ → α)
      (c0 c1 c2 : ℕ → V3 α) (r0 r1 r2 : ℕ → α)
      (m : ℕ) (clC : Fin m → ℕ → V3 α) (clR : Fin m → ℕ → α)
      (dnrC : ℕ → V3 α) (dnrR : ℕ → α) (k off minNeeded : ℕ),
      (countValid n tgtR = 0 →
        recover_marker_rel sqrt junk n tgtC tgtR c0 c1 c2 r0 r1 r2 = ⟨false, 0, none⟩
        ∧ recover_marker_rbt sqrt junk n tgtC tgtR c0 c1 c2 r0 r1 r2 = ⟨false, 0, none⟩
        ∧ fill_marker_gap_rbt sqrt svd n tgtC tgtR m clC clR = some ⟨false, 0, none⟩
        ∧ fill_marker_gap_pattern n tgtC tgtR dnrC dnrR off minNeeded
            = some ⟨false, 0, none⟩
        ∧ fill_marker_gap_interp spline n tgtC tgtR k off minNeeded
            = some ⟨false, 0, none⟩)
      ∧ (countValid n tgtR = n →
        recover_marker_rel sqrt junk n tgtC tgtR c0 c1 c2 r0 r1 r2 = ⟨false, n, none⟩
        ∧ recover_marker_rbt sqrt junk n tgtC tgtR c0 c1 c2 r0 r1 r2 = ⟨false, n, none⟩
        ∧ fill_marker_gap_rbt sqrt svd n tgtC tgtR m clC clR = some ⟨false, n, none⟩
        ∧ fill_marker_gap_pattern n tgtC tgtR dnrC dnrR off minNeeded
            = some ⟨false, n, none⟩
        ∧ fill_marker_gap_interp spline n tgtC tgtR k off minNeeded
            = some ⟨false, n, none⟩) := by
  intro α _ sqrt junk svd spline n tgtC tgtR c0 c1 c2 r0 r1 r2 m clC clR dnrC dnrR k off
    minNeeded
  constructor
  · intro h
    refine ⟨?_, ?_, ?_, ?_, ?_⟩ <;>
      simp [recover_marker_rel, recover_marker_rbt, fill_marker_gap_rbt,
        fill_marker_gap_pattern, fill_marker_gap_interp, h]
  · intro h
    by_cases h0 : countValid n tgtR = 0
    · have hn : n = 0 := h.symm.trans h0
      subst hn
      refine ⟨?_, ?_, ?_, ?_, ?_⟩ <;>
        simp [recover_marker_rel, recover_marker_rbt, fill_marker_gap_rbt,
          fill_marker_gap_pattern, fill_marker_gap_interp, h0]
    · refine ⟨?_, ?_, ?_, ?_, ?_⟩ <;>
        simp [recover_marker_rel, recover_marker_rbt, fill_marker_gap_rbt,
          fill_marker_gap_pattern, fill_marker_gap_interp, h0, h]

/-- Witness for C1: the all-invalid two-frame trajectory (count `0`) and the
all-valid two-frame trajectory (count `2 = n`), with trivial oracles. -/
theorem C1_trivial_guards_witness :
    countValid 2 (fun _ => (-1 : ℚ)) = 0
      ∧ recover_marker_rel (fun x => x) ⟨0, 0, 0⟩ 2 (fun _ => ⟨1, 2, 3⟩) (fun _ => (-1 : ℚ))
          (fun _ => ⟨0, 0, 0⟩) (fun _ => ⟨1, 0, 0⟩) (fun _ => ⟨0, 1, 0⟩)
          (fun _ => 0) (fun _ => 0) (fun _ => 0) = ⟨false, 0, none⟩
      ∧ countValid 2 (fun _ => (0 : ℚ)) = 2
      ∧ fill_marker_gap_interp (fun _ _ _ => (0 : ℚ)) 2 (fun _ => ⟨1, 2, 3⟩)
          (fun _ => (0 : ℚ)) 3 5 10 = some ⟨false, 2, none⟩ := by
  have hc0 : countValid 2 (fun _ => (-1 : ℚ)) = 0 := by
    simp [countValid, validFrames, trueFrames, List.range_succ, validB_neg_one]
  have hc2 : countValid 2 (fun _ => (0 : ℚ)) = 2 := by
    simp [countValid, validFrames, trueFrames, List.range_succ, validB_zero]
  refine ⟨hc0, ?_, hc2, ?_⟩
  · exact ((C1_trivial_guards ℚ (fun x => x) ⟨0, 0, 0⟩ (fun C => (C, ⟨0, 0, 0⟩, C))
      (fun _ _ _ => 0) 2 (fun _ => ⟨1, 2, 3⟩) (fun _ => (-1 : ℚ))
      (fun _ => ⟨0, 0, 0⟩) (fun _ => ⟨1, 0, 0⟩) (fun _ => ⟨0, 1, 0⟩)
      (fun _ => 0) (fun _ => 0) (fun _ => 0) 3 (fun _ _ => ⟨0, 0, 0⟩) (fun _ _ => 0)
      (fun _ => ⟨0, 0, 0⟩) (fun _ => 0) 3 5 10).1 hc0).1
  · exact ((C1_trivial_guards ℚ (fun x => x) ⟨0, 0, 0⟩ (fun C => (C, ⟨0, 0, 0⟩, C))
      (fun _ _ _ => 0) 2 (fun _ => ⟨1, 2, 3⟩) (fun _ => (0 : ℚ))
      (fun _ => ⟨0, 0, 0⟩) (fun _ => ⟨1, 0, 0⟩) (fun _ => ⟨0, 1, 0⟩)
      (fun _ => 0) (fun _ => 0) (fun _ => 0) 3 (fun _ _ => ⟨0, 0, 0⟩) (fun _ _ => 0)
      (fun _ => ⟨0, 0, 0⟩) (fun _ => 0) 3 5 10).2 hc2).2.2.2.2

/-- C9. Every fill strategy only ever writes residual `0.0` (never the `-1`
sentinel): in every session write-back, each frame's residual is either its
original value or `0.0`; every frame that was valid before the call keeps
its exact position and residual; and the returned valid-frame count is at
least the count before the call. -/
theorem C9_conservation :
    ∀ (α : Type) [LinearOrderedField α], ∀ (sqrt : α → α) (junk : V3 α)
      (svd : M3 α → M3 α × V3 α × M3 α) (spline : List ℕ → List α → ℕ → α)
      (n : ℕ) (tgtC : ℕ → V3 α) (tgtR : ℕ → α)
      (c0 c1 c2 : ℕ → V3 α) (r0 r1 r2 : ℕ → α)
      (m : ℕ) (clC : Fin m → ℕ → V3 α) (clR : Fin m → ℕ → α)
      (dnrC : ℕ → V3 α) (dnrR : ℕ → α) (k off minNeeded : ℕ),
      ((∀ w, (recover_marker_rel sqrt junk n tgtC tgtR c0 c1 c2 r0 r1 r2).wr = some w →
          (∀ fr, validB (tgtR fr) = true → w.pos fr = tgtC fr ∧ w.resid fr = tgtR fr)
          ∧ (∀ fr, w.resid fr = tgtR fr ∨ w.resid fr = 0))
        ∧ countValid n tgtR ≤ (recover_marker_rel sqrt junk n tgtC tgtR c0 c1 c2
            r0 r1 r2).nValid)
      ∧ ((∀ w, (recover_marker_rbt sqrt junk n tgtC tgtR c0 c1 c2 r0 r1 r2).wr = some w →
          (∀ fr, validB (tgtR fr) = true → w.pos fr = tgtC fr ∧ w.resid fr = tgtR fr)
          ∧ (∀ fr, w.resid fr = tgtR fr ∨ w.resid fr = 0))
        ∧ countValid n tgtR ≤ (recover_marker_rbt sqrt junk n tgtC tgtR c0 c1 c2
            r0 r1 r2).nValid)
      ∧ (∀ res, fill_marker_gap_rbt sqrt svd n tgtC tgtR m clC clR = some res →
          (∀ w, res.wr = some w →
            (∀ fr, validB (tgtR fr) = true → w.pos fr = tgtC fr ∧ w.resid fr = tgtR fr)
            ∧ (∀ fr, w.resid fr = tgtR fr ∨ w.resid fr = 0))
          ∧ countValid n tgtR ≤ res.nValid)
      ∧ (∀ res, fill_marker_gap_pattern n tgtC tgtR dnrC dnrR off minNeeded = some res →
          (∀ w, res.wr = some w →
            (∀ fr, validB (tgtR fr) = true → w.pos fr = tgtC fr ∧ w.resid fr = tgtR fr)
            ∧ (∀ fr, w.resid fr = tgtR fr ∨ w.resid fr = 0))
          ∧ countValid n tgtR ≤ res.nValid)
      ∧ (∀ res, fill_marker_gap_interp spline n tgtC tgtR k off minNeeded = some res →
          (∀ w, res.wr = some w →
            (∀ fr, validB (tgtR fr) = true → w.pos fr = tgtC fr ∧ w.resid fr = tgtR fr)
            ∧ (∀ fr, w.resid fr = tgtR fr ∨ w.resid fr = 0))
          ∧ countValid n tgtR ≤ res.nValid) := by
  intro α _ sqrt junk svd spline n tgtC tgtR c0 c1 c2 r0 r1 r2 m clC clR dnrC dnrR k off
    minNeeded
  have hmono : ∀ r' : ℕ → α,
      (∀ j, validB (tgtR j) = true → r' j = tgtR j) → countValid n tgtR ≤ countValid n r' := by
    intro r' h
    apply countValid_mono
    intro fr hv
    rw [h fr hv]
    exact hv
  refine ⟨?_, ?_, ?_, ?_, ?_⟩
  -- Strategy A: recover_marker_rel
  · simp only [recover_marker_rel]
    split
    · exact ⟨fun w hw => absurd hw (by simp), le_refl _⟩
    · split
      · exact ⟨fun w hw => absurd hw (by simp), le_refl _⟩
      · split
        · exact ⟨fun w hw => absurd hw (by simp), le_refl _⟩
        · split
          · exact ⟨fun w hw => absurd hw (by simp), le_refl _⟩
          · constructor
            · intro w hw
              injection hw with hw'
              subst hw'
              constructor
              · intro fr hfr
                have hco : (validB (r0 fr) && validB (r1 fr) && validB (r2 fr)
                    && ! validB (tgtR fr)) = false := by rw [hfr]; simp
                constructor <;> simp [hco]
              · intro fr
                rcases hco : (validB (r0 fr) && validB (r1 fr) && validB (r2 fr)
                    && ! validB (tgtR fr)) with _ | _ <;> simp [hco]
            · apply hmono
              intro j hj
              have hco : (validB (r0 j) && validB (r1 j) && validB (r2 j)
                  && ! validB (tgtR j)) = false := by rw [hj]; simp
              simp [hco]
  -- Strategy B: recover_marker_rbt
  · simp only [recover_marker_rbt]
    split
    · exact ⟨fun w hw => absurd hw (by simp), le_refl _⟩
    · split
      · exact ⟨fun w hw => absurd hw (by simp), le_refl _⟩
      · split
        · exact ⟨fun w hw => absurd hw (by simp), le_refl _⟩
        · split
          · exact ⟨fun w hw => absurd hw (by simp), le_refl _⟩
          · have hInv := recoverRbtFill_keeps sqrt junk n tgtC tgtR c0 c1 c2
              (trueFrames n fun fr =>
                validB (r0 fr) && validB (r1 fr) && validB (r2 fr) && validB (tgtR fr))
              (trueFrames n fun fr =>
                validB (r0 fr) && validB (r1 fr) && validB (r2 fr) && ! validB (tgtR fr))
              (fun fr hfr => by
                obtain ⟨_, hb⟩ := mem_trueFrames.mp hfr
                simp only [Bool.and_eq_true, Bool.not_eq_true'] at hb
                exact hb.2)
            exact ⟨fun w hw => by
                injection hw with hw'
                subst hw'
                exact hInv, hmono _ fun j hj => (hInv.1 j hj).2⟩
  -- Strategy C: fill_marker_gap_rbt
  · intro res hres
    simp only [fill_marker_gap_rbt] at hres
    split at hres
    · injection hres with h'; subst h'
      exact ⟨fun w hw => absurd hw (by simp), le_refl _⟩
    · split at hres
      · injection hres with h'; subst h'
        exact ⟨fun w hw => absurd hw (by simp), le_refl _⟩
      · split at hres
        · injection hres with h'; subst h'
          exact ⟨fun w hw => absurd hw (by simp), le_refl _⟩
        · split at hres
          · injection hres with h'; subst h'
            exact ⟨fun w hw => absurd hw (by simp), le_refl _⟩
          · split at hres
            · cases hres
            · rename_i fin hfold
              have hkeep := fillRbt_fold_keeps sqrt svd clC _ _ tgtC tgtR _
                (fun fr hfr => by
                  obtain ⟨_, hb⟩ := mem_trueFrames.mp hfr
                  simp only [Bool.and_eq_true, Bool.not_eq_true'] at hb
                  exact hb.2)
                ⟨tgtC, tgtR, false⟩ fin (fun j _ => ⟨rfl, rfl⟩) (fun j => .inl rfl) hfold
              split at hres
              · injection hres with h'; subst h'
                exact ⟨fun w hw => by
                    injection hw with hw'
                    subst hw'
                    exact hkeep, hmono _ fun j hj => (hkeep.1 j hj).2⟩
              · injection hres with h'; subst h'
                exact ⟨fun w hw => absurd hw (by simp), le_refl _⟩
  -- Strategy D: fill_marker_gap_pattern
  · intro res hres
    simp only [fill_marker_gap_pattern] at hres
    split at hres
    · injection hres with h'; subst h'
      exact ⟨fun w hw => absurd hw (by simp), le_refl _⟩
    · split at hres
      · injection hres with h'; subst h'
        exact ⟨fun w hw => absurd hw (by simp), le_refl _⟩
      · split at hres
        · injection hres with h'; subst h'
          exact ⟨fun w hw => absurd hw (by simp), le_refl _⟩
        · split at hres
          · injection hres with h'; subst h'
            exact ⟨fun w hw => absurd hw (by simp), le_refl _⟩
          · split at hres
            · cases hres
            · rename_i fin hfold
              have hkeep := foldl_opt_invariant
                (patternProcessGap n dnrC (fun fr => validB (tgtR fr))
                  (fun fr => validB (dnrR fr)) off minNeeded)
                (runs (fun fr => ! validB (tgtR fr)) n)
                (fun st => (∀ j, validB (tgtR j) = true → st.c j = tgtC j ∧ st.r j = tgtR j)
                  ∧ (∀ j, st.r j = tgtR j ∨ st.r j = 0))
                (fun g => patternProcessGap_none n dnrC _ _ off minNeeded g)
                (fun st g hgmem hInv st' heq =>
                  patternProcessGap_keeps n dnrC _ _ off minNeeded tgtC tgtR st g
                    (fun fr hfr => by
                      obtain ⟨s, _, rfl⟩ := mem_runs hgmem
                      have := (mem_runAt hfr).2.2
                      simpa using this)
                    hInv.1 hInv.2 st' heq)
                ⟨tgtC, tgtR, false⟩ fin ⟨fun j _ => ⟨rfl, rfl⟩, fun j => .inl rfl⟩ hfold
              split at hres
              · injection hres with h'; subst h'
                exact ⟨fun w hw => by
                    injection hw with hw'
                    subst hw'
                    exact hkeep, hmono _ fun j hj => (hkeep.1 j hj).2⟩
              · injection hres with h'; subst h'
                exact ⟨fun w hw => absurd hw (by simp), le_refl _⟩
  -- Strategy E: fill_marker_gap_interp
  · intro res hres
    simp only [fill_marker_gap_interp] at hres
    split at hres
    · injection hres with h'; subst h'
      exact ⟨fun w hw => absurd hw (by simp), le_refl _⟩
    · split at hres
      · injection hres with h'; subst h'
        exact ⟨fun w hw => absurd hw (by simp), le_refl _⟩
      · split at hres
        · cases hres
        · rename_i fin hfold
          have hkeep := foldl_opt_invariant
            (interpProcessGap spline n (fun fr => validB (tgtR fr)) k off minNeeded)
            (runs (fun fr => ! validB (tgtR fr)) n)
            (fun st => (∀ j, validB (tgtR j) = true → st.c j = tgtC j ∧ st.r j = tgtR j)
              ∧ (∀ j, st.r j = tgtR j ∨ st.r j = 0))
            (fun g => interpProcessGap_none spline n _ k off minNeeded g)
            (fun st g hgmem hInv st' heq =>
              interpProcessGap_keeps spline n _ k off minNeeded tgtC tgtR st g
                (fun fr hfr => by
                  obtain ⟨s, _, rfl⟩ := mem_runs hgmem
                  have := (mem_runAt hfr).2.2
                  simpa using this)
                hInv.1 hInv.2 st' heq)
            ⟨tgtC, tgtR, false⟩ fin ⟨fun j _ => ⟨rfl, rfl⟩, fun j => .inl rfl⟩ hfold
          split at hres
          · injection hres with h'; subst h'
            exact ⟨fun w hw => by
                injection hw with hw'
                subst hw'
                exact hkeep, hmono _ fun j hj => (hkeep.1 j hj).2⟩
          · injection hres with h'; subst h'
            exact ⟨fun w hw => absurd hw (by simp), le_refl _⟩

/-- C10. Each fill strategy performs a session write-back
(`set_marker_pos` followed by `set_marker_resid`, the `wr` component being
`some`) if and only if its Boolean result is `True`; on every `(False, n)`
return no write occurs and the stored trajectory is unchanged. -/
theorem C10_writeback_iff_updated :
    ∀ (α : Type) [LinearOrderedField α], ∀ (sqrt : α → α) (junk : V3 α)
      (svd : M3 α → M3 α × V3 α × M3 α) (spline : List ℕ → List α → ℕ → α)
      (n : ℕ) (tgtC : ℕ → V3 α) (tgtR : ℕ → α)
      (c0 c1 c2 : ℕ → V3 α) (r0 r1 r2 : ℕ → α)
      (m : ℕ) (clC : Fin m → ℕ → V3 α) (clR : Fin m → ℕ → α)
      (dnrC : ℕ → V3 α) (dnrR : ℕ → α) (k off minNeeded : ℕ),
      ((recover_marker_rel sqrt junk n tgtC tgtR c0 c1 c2 r0 r1 r2).updated = true
        ↔ ((recover_marker_rel sqrt junk n tgtC tgtR c0 c1 c2 r0 r1 r2).wr).isSome = true)
      ∧ ((recover_marker_rbt sqrt junk n tgtC tgtR c0 c1 c2 r0 r1 r2).updated = true
        ↔ ((recover_marker_rbt sqrt junk n tgtC tgtR c0 c1 c2 r0 r1 r2).wr).isSome = true)
      ∧ (∀ res, fill_marker_gap_rbt sqrt svd n tgtC tgtR m clC clR = some res →
          (res.updated = true ↔ res.wr.isSome = true))
      ∧ (∀ res, fill_marker_gap_pattern n tgtC tgtR dnrC dnrR off minNeeded = some res →
          (res.updated = true ↔ res.wr.isSome = true))
      ∧ (∀ res, fill_marker_gap_interp spline n tgtC tgtR k off minNeeded = some res →
          (res.updated = true ↔ res.wr.isSome = true)) := by
  intro α _ sqrt junk svd spline n tgtC tgtR c0 c1 c2 r0 r1 r2 m clC clR dnrC dnrR k off
    minNeeded
  refine ⟨?_, ?_, ?_, ?_, ?_⟩
  · simp only [recover_marker_rel]
    split
    · simp
    · split
      · simp
      · split
        · simp
        · split
          · simp
          · simp
  · simp only [recover_marker_rbt]
    split
    · simp
    · split
      · simp
      · split
        · simp
        · split
          · simp
          · simp
  · intro res hres
    simp only [fill_marker_gap_rbt] at hres
    split at hres
    · injection hres with h'; subst h'; simp
    · split at hres
      · injection hres with h'; subst h'; simp
      · split at hres
        · injection hres with h'; subst h'; simp
        · split at hres
          · injection hres with h'; subst h'; simp
          · split at hres
            · cases hres
            · split at hres
              · injection hres with h'; subst h'; simp
              · injection hres with h'; subst h'; simp
  · intro res hres
    simp only [fill_marker_gap_pattern] at hres
    split at hres
    · injection hres with h'; subst h'; simp
    · split at hres
      · injection hres with h'; subst h'; simp
      · split at hres
        · injection hres with h'; subst h'; simp
        · split at hres
          · injection hres with h'; subst h'; simp
          · split at hres
            · cases hres
            · split at hres
              · injection hres with h'; subst h'; simp
              · injection hres with h'; subst h'; simp
  · intro res hres
    simp only [fill_marker_gap_interp] at hres
    split at hres
    · injection hres with h'; subst h'; simp
    · split at hres
      · injection hres with h'; subst h'; simp
      · split at hres
        · cases hres
        · split at hres
          · injection hres with h'; subst h'; simp
          · injection hres with h'; subst h'; simp

/-- Witness for C9: the 3-frame boundary-gap trajectory, where
`recover_marker_rel` produces a write-back; the conservation properties are
instances of the general statement. -/
theorem C9_conservation_witness :
    ∃ w, (recover_marker_rel sqrtId junk0 3 cstC bTgtR cl0C cl1C cl2C zeroResid zeroResid
        zeroResid).wr = some w
      ∧ (∀ fr, validB (bTgtR fr) = true → w.pos fr = cstC fr ∧ w.resid fr = bTgtR fr)
      ∧ (∀ fr, w.resid fr = bTgtR fr ∨ w.resid fr = 0)
      ∧ countValid 3 bTgtR ≤ (recover_marker_rel sqrtId junk0 3 cstC bTgtR cl0C cl1C cl2C
          zeroResid zeroResid zeroResid).nValid := by
  rcases hwr : (recover_marker_rel sqrtId junk0 3 cstC bTgtR cl0C cl1C cl2C zeroResid
      zeroResid zeroResid).wr with _ | w
  · have h := rel_boundary_eval.2.2
    rw [hwr] at h
    simp at h
  · have h9 := (C9_conservation ℚ sqrtId junk0 svdTriv splineTriv 3 cstC bTgtR cl0C cl1C
      cl2C zeroResid zeroResid zeroResid 3 clC3 clR3 patDnrC patDnrR 3 1 3).1
    exact ⟨w, rfl, (h9.1 w hwr).1, (h9.1 w hwr).2, h9.2⟩

/-- Witness for C10: a fully valid two-frame trajectory, where
`fill_marker_gap_interp` returns `(False, 2)` with no write-back, matching
the equivalence at that input. -/
theorem C10_writeback_iff_updated_witness :
    fill_marker_gap_interp splineTriv 2 cstC (fun _ => (0 : ℚ)) 3 5 10
        = some ⟨false, 2, none⟩
      ∧ ((⟨false, 2, none⟩ : FillResult ℚ).updated = true
        ↔ ((⟨false, 2, none⟩ : FillResult ℚ).wr).isSome = true) := by
  have heq : fill_marker_gap_interp splineTriv 2 cstC (fun _ => (0 : ℚ)) 3 5 10
      = some ⟨false, 2, none⟩ := by
    simp [fill_marker_gap_interp, countValid, validFrames, trueFrames, List.range_succ,
      validB_zero]
  exact ⟨heq, (C10_writeback_iff_updated ℚ sqrtId junk0 svdTriv splineTriv 2 cstC
    (fun _ => 0) cl0C cl1C cl2C zeroResid zeroResid zeroResid 3 clC3 clR3 patDnrC patDnrR
    3 5 10).2.2.2.2 ⟨false, 2, none⟩ heq⟩

/-- C2 counterexample: on a 3-frame trajectory whose only invalid run is
the leading boundary gap `{0}` (which the gap segmenter excludes), the
strategy `recover_marker_rel` nevertheless writes position and residual
into frame `0`: the write-back carries residual `0.0` there although the
original residual was the `-1` sentinel.  This refutes the claim that no
strategy writes into any frame of a boundary gap. -/
theorem C2_boundary_gap_counterexample :
    runs (fun fr => ! validB (bTgtR fr)) 3 = [[0]]
      ∧ gapSegmenter 3 (fun fr => validB (bTgtR fr)) = []
      ∧ bTgtR 0 = -1
      ∧ ((recover_marker_rel sqrtId junk0 3 cstC bTgtR cl0C cl1C cl2C zeroResid zeroResid
          zeroResid).wr.map fun w => w.resid 0) = some 0 := by
  refine ⟨?_, ?_, by norm_num [bTgtR], rel_boundary_eval.2.2⟩ <;>
    simp [runs, runStarts, runAt, gapSegmenter, List.range_succ, List.range',
      List.takeWhile, bTgtR, validB_neg_one, validB_zero]

/-- C2 (amended).  Gap segmentation never produces an empty gap or one
whose minimum index is `0` or maximum index is `n-1`, and the three
strategies that iterate over segmented gaps — `fill_marker_gap_rbt`,
`fill_marker_gap_pattern` and `fill_marker_gap_interp` — never write a
position or residual into any frame of a boundary gap.  (The two
extrapolating strategies `recover_marker_rel` / `recover_marker_rbt` do
fill boundary frames whenever the cluster is valid there, single-sidedly;
see the counterexample.) -/
theorem C2_gap_segmentation_boundary :
    (∀ (n : ℕ) (validMask : ℕ → Bool), ∀ g ∈ gapSegmenter n validMask,
      g ≠ [] ∧ g.headD 0 ≠ 0 ∧ g.getLastD 0 ≠ n - 1
        ∧ ∀ fr ∈ g, g.headD 0 ≤ fr ∧ fr ≤ g.getLastD 0)
    ∧ (∀ (α : Type) [LinearOrderedField α], ∀ (sqrt : α → α)
      (svd : M3 α → M3 α × V3 α × M3 α) (spline : List ℕ → List α → ℕ → α)
      (n : ℕ) (tgtC : ℕ → V3 α) (tgtR : ℕ → α)
      (m : ℕ) (clC : Fin m → ℕ → V3 α) (clR : Fin m → ℕ → α)
      (dnrC : ℕ → V3 α) (dnrR : ℕ → α) (k off minNeeded : ℕ) (fr : ℕ),
      ((∀ j, j ≤ fr → validB (tgtR j) = false)
        ∨ (∀ j, fr ≤ j → j < n → validB (tgtR j) = false)) →
      (∀ res w, fill_marker_gap_rbt sqrt svd n tgtC tgtR m clC clR = some res →
        res.wr = some w → w.pos fr = tgtC fr ∧ w.resid fr = tgtR fr)
      ∧ (∀ res w, fill_marker_gap_pattern n tgtC tgtR dnrC dnrR off minNeeded = some res →
        res.wr = some w → w.pos fr = tgtC fr ∧ w.resid fr = tgtR fr)
      ∧ (∀ res w, fill_marker_gap_interp spline n tgtC tgtR k off minNeeded = some res →
        res.wr = some w → w.pos fr = tgtC fr ∧ w.resid fr = tgtR fr)) := by
  constructor
  · intro n validMask g hg
    simp only [gapSegmenter, List.mem_filter] at hg
    obtain ⟨hgr, hcond⟩ := hg
    obtain ⟨s, hs, rfl⟩ := mem_runs hgr
    rw [mem_runStarts] at hs
    obtain ⟨hsn, hps, _⟩ := hs
    obtain ⟨m, hm0, hsmn, hrange, hhead, hlast, _, _⟩ :=
      @runAt_of_start (fun fr => ! validMask fr) n s hsn hps
    simp only [Bool.not_eq_true', Bool.or_eq_false_iff, beq_eq_false_iff_ne] at hcond
    refine ⟨?_, hcond.1, hcond.2, ?_⟩
    · rw [hrange]
      intro he
      rcases m with _ | m'
      · exact absurd hm0 (by omega)
      · simp [List.range'] at he
    · intro fr hfr
      rw [hrange, List.mem_range'_1] at hfr
      rw [hhead, hlast]
      omega
  · intro α _ sqrt svd spline n tgtC tgtR m clC clR dnrC dnrR k off minNeeded fr hbound
    have hboundp : (∀ j, j ≤ fr → (! validB (tgtR j)) = true)
        ∨ (∀ j, fr ≤ j → j < n → (! validB (tgtR j)) = true) := by
      rcases hbound with h | h
      · exact .inl fun j hj => by rw [h j hj]; rfl
      · exact .inr fun j hj hj' => by rw [h j hj hj']; rfl
    refine ⟨?_, ?_, ?_⟩
    -- fill_marker_gap_rbt
    · intro res w hres hw
      simp only [fill_marker_gap_rbt] at hres
      split at hres
      · injection hres with h'; subst h'; simp at hw
      · split at hres
        · injection hres with h'; subst h'; simp at hw
        · split at hres
          · injection hres with h'; subst h'; simp at hw
          · split at hres
            · injection hres with h'; subst h'; simp at hw
            · split at hres
              · cases hres
              · rename_i fin hfold
                have hkeep := foldl_opt_invariant _ _
                  (fun st => st.c fr = tgtC fr ∧ st.r fr = tgtR fr)
                  (fun b => fillRbtStep_none sqrt svd clC _ _ b)
                  (fun st b hb hInv st' heq => by
                    by_cases hne : fr = b
                    · subst hne
                      rcases fillRbtStep_cases sqrt svd clC
                          (fun fr => (List.finRange m).all fun i => validB (clR i fr))
                          (trueFrames n fun fr =>
                            ((List.finRange m).all fun i => validB (clR i fr))
                              && validB (tgtR fr)) st fr with hc | hc |
                          ⟨fr0, fr1, v, hm0', hm1', hlt0, hlt1, _, hc⟩
                      · rw [hc] at heq; cases heq
                      · rw [hc] at heq; injection heq with h'; subst h'; exact hInv
                      · exfalso
                        obtain ⟨hfr0n, hfr0v⟩ := mem_trueFrames.mp hm0'
                        obtain ⟨hfr1n, hfr1v⟩ := mem_trueFrames.mp hm1'
                        simp only [Bool.and_eq_true] at hfr0v hfr1v
                        rcases hbound with hb | hb
                        · rw [hb fr0 (by omega)] at hfr0v
                          exact absurd hfr0v.2 (by simp)
                        · rw [hb fr1 (by omega) hfr1n] at hfr1v
                          exact absurd hfr1v.2 (by simp)
                    · obtain ⟨hc, hr⟩ := fillRbtStep_untouched sqrt svd clC _ _ st st' b fr
                        hne heq
                      exact ⟨hc.trans hInv.1, hr.trans hInv.2⟩)
                  ⟨tgtC, tgtR, false⟩ fin ⟨rfl, rfl⟩ hfold
                split at hres
                · injection hres with h'; subst h'
                  injection hw with hw'; subst hw'
                  exact hkeep
                · injection hres with h'; subst h'; simp at hw
    -- fill_marker_gap_pattern
    · intro res w hres hw
      simp only [fill_marker_gap_pattern] at hres
      split at hres
      · injection hres with h'; subst h'; simp at hw
      · split at hres
        · injection hres with h'; subst h'; simp at hw
        · split at hres
          · injection hres with h'; subst h'; simp at hw
          · split at hres
            · injection hres with h'; subst h'; simp at hw
            · split at hres
              · cases hres
              · rename_i fin hfold
                have hkeep := foldl_opt_invariant _ _
                  (fun st => st.c fr = tgtC fr ∧ st.r fr = tgtR fr)
                  (fun g => patternProcessGap_none n dnrC _ _ off minNeeded g)
                  (fun st g hgmem hInv st' heq => by
                    by_cases hfrg : fr ∈ g
                    · obtain ⟨s, hs, rfl⟩ := mem_runs hgmem
                      have htouch := boundary_run_touches hs hfrg hboundp
                      rcases patternProcessGap_cases n dnrC (fun fr => validB (tgtR fr))
                          (fun fr => validB (dnrR fr)) off minNeeded st
                          (runAt (fun fr => ! validB (tgtR fr)) n s) with hc |
                          ⟨_, hhead, hlast, _, _, _⟩
                      · rw [hc] at heq
                        injection heq with h'
                        subst h'
                        exact hInv
                      · rcases htouch with h | h
                        · exact absurd h hhead
                        · exact absurd h hlast
                    · obtain ⟨hc, hr⟩ := patternProcessGap_untouched n dnrC _ _ off
                        minNeeded g fr hfrg st st' heq
                      exact ⟨hc.trans hInv.1, hr.trans hInv.2⟩)
                  ⟨tgtC, tgtR, false⟩ fin ⟨rfl, rfl⟩ hfold
                split at hres
                · injection hres with h'; subst h'
                  injection hw with hw'; subst hw'
                  exact hkeep
                · injection hres with h'; subst h'; simp at hw
    -- fill_marker_gap_interp
    · intro res w hres hw
      simp only [fill_marker_gap_interp] at hres
      split at hres
      · injection hres with h'; subst h'; simp at hw
      · split at hres
        · injection hres with h'; subst h'; simp at hw
        · split at hres
          · cases hres
          · rename_i fin hfold
            have hkeep := foldl_opt_invariant _ _
              (fun st => st.c fr = tgtC fr ∧ st.r fr = tgtR fr)
              (fun g => interpProcessGap_none spline n _ k off minNeeded g)
              (fun st g hgmem hInv st' heq => by
                by_cases hfrg : fr ∈ g
                · obtain ⟨s, hs, rfl⟩ := mem_runs hgmem
                  have htouch := boundary_run_touches hs hfrg hboundp
                  rcases interpProcessGap_cases spline n (fun fr => validB (tgtR fr)) k
                      off minNeeded st (runAt (fun fr => ! validB (tgtR fr)) n s) with
                      hc | hc | ⟨_, hhead, hlast, _, _, _, _, _⟩
                  · rw [hc] at heq
                    injection heq with h'
                    subst h'
                    exact hInv
                  · rw [hc] at heq; cases heq
                  · rcases htouch with h | h
                    · exact absurd h hhead
                    · exact absurd h hlast
                · obtain ⟨hc, hr⟩ := interpProcessGap_untouched spline n _ k off minNeeded
                    g fr hfrg st st' heq
                  exact ⟨hc.trans hInv.1, hr.trans hInv.2⟩)
              ⟨tgtC, tgtR, false⟩ fin ⟨rfl, rfl⟩ hfold
            split at hres
            · injection hres with h'; subst h'
              injection hw with hw'; subst hw'
              exact hkeep
            · injection hres with h'; subst h'; simp at hw

/-- Witness for the amended C2: the gap `[2]` of a 5-frame mask invalid
only at frame `2` is segmented and internal, and at the concrete 3-frame
boundary-gap trajectory the gap-iterating `fill_marker_gap_interp` leaves
frame `0` untouched in any write-back. -/
theorem C2_gap_segmentation_boundary_witness :
    ([2] ∈ gapSegmenter 5 fun fr => decide (fr ≠ 2))
      ∧ ([2] : List ℕ) ≠ [] ∧ ([2] : List ℕ).headD 0 ≠ 0
      ∧ ([2] : List ℕ).getLastD 0 ≠ 5 - 1
      ∧ (∀ res w, fill_marker_gap_interp splineTriv 3 cstC bTgtR 3 1 1 = some res →
          res.wr = some w → w.pos 0 = cstC 0 ∧ w.resid 0 = bTgtR 0) := by
  have hmem : [2] ∈ gapSegmenter 5 fun fr => decide (fr ≠ 2) := by decide
  have ha := C2_gap_segmentation_boundary.1 5 (fun fr => decide (fr ≠ 2)) [2] hmem
  have hb := (C2_gap_segmentation_boundary.2 ℚ sqrtId svdTriv splineTriv 3 cstC bTgtR
    3 clC3 clR3 patDnrC patDnrR 3 1 1 0
    (Or.inl fun j hj => by
      have hj0 : j = 0 := Nat.le_zero.mp hj
      subst hj0
      simp [bTgtR, validB_neg_one])).2.2
  exact ⟨hmem, ha.1, ha.2.1, ha.2.2.1, hb⟩

/-- C3. In `get_fp_output`, for every plate and every frame, if
`|Fz| ≤ threshold` then all six local force and moment components at that
frame are set to exactly 0, and frames with `|Fz| > threshold` retain their
original values; in particular, for a type-2 plate with
`Fz = [0,0,0,50,60,0]` and threshold `10.0`, frames 0, 1, 2, 5 are zeroed
and frames 3, 4 are unchanged. -/
theorem C3_fp_threshold_zeroing :
    (∀ (α : Type) [LinearOrderedField α], ∀ (threshold : α) (fRaw mRaw : ℕ → V3 α) (fr : ℕ),
      (|(fRaw fr).z| ≤ threshold →
        fSensorLocal threshold fRaw fr = 0 ∧ mSensorLocal threshold fRaw mRaw fr = 0) ∧
      (threshold < |(fRaw fr).z| →
        fSensorLocal threshold fRaw fr = fRaw fr ∧ mSensorLocal threshold fRaw mRaw fr = mRaw fr))
    ∧ (∀ fr, (fr = 0 ∨ fr = 1 ∨ fr = 2 ∨ fr = 5) →
        fSensorLocal (10 : ℚ) exFRaw fr = 0 ∧ mSensorLocal (10 : ℚ) exFRaw exMRaw fr = 0)
    ∧ (∀ fr, (fr = 3 ∨ fr = 4) →
        fSensorLocal (10 : ℚ) exFRaw fr = exFRaw fr
          ∧ mSensorLocal (10 : ℚ) exFRaw exMRaw fr = exMRaw fr) := by
  refine ⟨?_, ?_, ?_⟩
  · intro α _ threshold fRaw mRaw fr
    constructor
    · intro h
      have hm : fmSkipMask threshold fRaw fr = true := by
        simp only [fmSkipMask, decide_eq_true_eq]; exact h
      exact ⟨by simp [fSensorLocal, hm], by simp [mSensorLocal, hm]⟩
    · intro h
      have hm : fmSkipMask threshold fRaw fr = false := by
        simp only [fmSkipMask, decide_eq_false_iff_not]; exact not_le.mpr h
      exact ⟨by simp [fSensorLocal, hm], by simp [mSensorLocal, hm]⟩
  · intro fr h
    rcases h with h | h | h | h <;> subst h <;>
      constructor <;>
      norm_num [fSensorLocal, mSensorLocal, fmSkipMask, exFRaw, exMRaw, exFz]
  · intro fr h
    rcases h with h | h <;> subst h <;>
      constructor <;>
      norm_num [fSensorLocal, mSensorLocal, fmSkipMask, exFRaw, exMRaw, exFz]

/-- Witness for C3: the general statement applied to the concrete scenario
data at a masked frame (0) and at an unmasked frame (3). -/
theorem C3_fp_threshold_zeroing_witness :
    (|(exFRaw 0).z| ≤ (10 : ℚ) ∧ fSensorLocal (10 : ℚ) exFRaw 0 = 0)
      ∧ ((10 : ℚ) < |(exFRaw 3).z| ∧ fSensorLocal (10 : ℚ) exFRaw 3 = exFRaw 3) :=
  ⟨⟨by norm_num [exFRaw, exFz],
    ((C3_fp_threshold_zeroing.1 ℚ 10 exFRaw exMRaw 0).1 (by norm_num [exFRaw, exFz])).1⟩,
   ⟨by norm_num [exFRaw, exFz],
    ((C3_fp_threshold_zeroing.1 ℚ 10 exFRaw exMRaw 3).2 (by norm_num [exFRaw, exFz])).1⟩⟩

/-- C4. The plate-local COP of `get_fp_output`: on unmasked frames the
divisor `Fz` is nonzero (given a non-negative threshold) and
`cop_x = clip((-My + (-Oz)·Fx)/Fz + Ox, ±len_x/2)`,
`cop_y = clip((Mx + (-Oz)·Fy)/Fz + Oy, ±len_y/2)`, so the COP stays within
the plate half-extents; `Fz` is replaced by `+∞` (modelled as `⊤`) exactly
at threshold-masked frames; and with `cop_nan_to_num = True` the COP at
every masked frame is exactly `(0,0,0)`, never NaN — in particular at a
masked frame with `Fz = 0`. -/
theorem C4_fp_cop_solve :
    (∀ (α : Type) [LinearOrderedField α],
      ∀ (threshold oX oY oZ lenX lenY : α) (fRaw mRaw : ℕ → V3 α) (fr : ℕ),
      (0 ≤ threshold → fmSkipMask threshold fRaw fr = false → (fRaw fr).z ≠ 0) ∧
      (fmSkipMask threshold fRaw fr = false →
        copLX threshold oX oZ lenX fRaw mRaw fr
            = some (clip ((-(mRaw fr).y + (-oZ) * (fRaw fr).x) / (fRaw fr).z + oX)
                (-(lenX / 2)) (lenX / 2))
          ∧ copLY threshold oY oZ lenY fRaw mRaw fr
            = some (clip (((mRaw fr).x + (-oZ) * (fRaw fr).y) / (fRaw fr).z + oY)
                (-(lenY / 2)) (lenY / 2))) ∧
      (0 ≤ lenX → ∀ v, copLX threshold oX oZ lenX fRaw mRaw fr = some v →
        -(lenX / 2) ≤ v ∧ v ≤ lenX / 2) ∧
      (0 ≤ lenY → ∀ v, copLY threshold oY oZ lenY fRaw mRaw fr = some v →
        -(lenY / 2) ≤ v ∧ v ≤ lenY / 2) ∧
      (fzAdj threshold fRaw fr = ⊤ ↔ fmSkipMask threshold fRaw fr = true) ∧
      (fmSkipMask threshold fRaw fr = true →
        copNanToNum true (copLX threshold oX oZ lenX fRaw mRaw fr) = some 0
          ∧ copNanToNum true (copLY threshold oY oZ lenY fRaw mRaw fr) = some 0
          ∧ copNanToNum true (copLZ threshold fRaw fr) = some 0))
    ∧ ((exFRaw 0).z = 0 ∧ fmSkipMask (0 : ℚ) exFRaw 0 = true
        ∧ copNanToNum true (copLX (0 : ℚ) 1 2 4 exFRaw exMRaw 0) = some 0
        ∧ copNanToNum true (copLY (0 : ℚ) 3 2 6 exFRaw exMRaw 0) = some 0
        ∧ copNanToNum true (copLZ (0 : ℚ) exFRaw 0) = some 0) := by
  constructor
  · intro α _ threshold oX oY oZ lenX lenY fRaw mRaw fr
    refine ⟨?_, ?_, ?_, ?_, ?_, ?_⟩
    · intro hthr hm hz
      have : fmSkipMask threshold fRaw fr = true := by
        simp only [fmSkipMask, decide_eq_true_eq, hz, abs_zero]; exact hthr
      rw [this] at hm; cases hm
    · intro hm
      constructor
      · simp [copLX, hm, fSensorLocal, mSensorLocal]
      · simp [copLY, hm, fSensorLocal, mSensorLocal]
    · intro hlen v hv
      simp only [copLX] at hv
      rcases h : fmSkipMask threshold fRaw fr with _ | _
      · rw [h] at hv; simp only [Bool.false_eq_true, if_false, Option.some.injEq] at hv
        subst hv
        have h1 : -(lenX / 2) ≤ lenX / 2 := by linarith
        simp only [clip]
        exact ⟨le_min (le_max_right _ _) h1, min_le_right _ _⟩
      · rw [h] at hv; simp at hv
    · intro hlen v hv
      simp only [copLY] at hv
      rcases h : fmSkipMask threshold fRaw fr with _ | _
      · rw [h] at hv; simp only [Bool.false_eq_true, if_false, Option.some.injEq] at hv
        subst hv
        have h1 : -(lenY / 2) ≤ lenY / 2 := by linarith
        simp only [clip]
        exact ⟨le_min (le_max_right _ _) h1, min_le_right _ _⟩
      · rw [h] at hv; simp at hv
    · constructor
      · intro htop
        by_contra hm
        rw [Bool.not_eq_true] at hm
        rw [fzAdj, hm] at htop
        simp at htop
      · intro hm; simp [fzAdj, hm]
    · intro hm
      exact ⟨by simp [copNanToNum, copLX, hm], by simp [copNanToNum, copLY, hm],
        by simp [copNanToNum, copLZ, hm]⟩
  · refine ⟨by norm_num [exFRaw, exFz], ?_, ?_, ?_, ?_⟩ <;>
      norm_num [fmSkipMask, copNanToNum, copLX, copLY, copLZ, exFRaw, exFz]

/-- Witness for C4: the general statement applied at a concrete unmasked
frame (frame 3 of the scenario data, threshold 10) and the masked branch of
the same data. -/
theorem C4_fp_cop_solve_witness :
    ((0 : ℚ) ≤ 10 ∧ fmSkipMask (10 : ℚ) exFRaw 3 = false ∧ (exFRaw 3).z ≠ 0)
      ∧ ((0 : ℚ) ≤ 4 ∧ ∀ v, copLX (10 : ℚ) 1 2 4 exFRaw exMRaw 3 = some v →
          -((4 : ℚ) / 2) ≤ v ∧ v ≤ (4 : ℚ) / 2) :=
  ⟨⟨by norm_num, by norm_num [fmSkipMask, exFRaw, exFz],
    ((C4_fp_cop_solve.1 ℚ 10 1 3 2 4 6 exFRaw exMRaw 3).1 (by norm_num)
      (by norm_num [fmSkipMask, exFRaw, exFz]))⟩,
   ⟨by norm_num, ((C4_fp_cop_solve.1 ℚ 10 1 3 2 4 6 exFRaw exMRaw 3).2.2.1 (by norm_num))⟩⟩

/-- C8 counterexample: the claim says that for a zero-norm input the
normalization returns the zero vector unchanged.  In the source,
`np.divide(vec, nrm, where=(nrm != 0))` with no `out=` argument leaves the
unselected rows of the freshly allocated output uninitialized, so the
result row is unspecified memory (`junk`), not the zero vector: with junk
contents `(1,2,3)` the result of normalizing the zero vector is not `0`. -/
theorem C8_unit_zero_norm_counterexample :
    unitWhere Real.sqrt ⟨1, 2, 3⟩ (0 : V3 ℝ) ≠ 0 := by
  have h : vnorm Real.sqrt (0 : V3 ℝ) = 0 := by
    simp [vnorm, V3.dot, V3.zero_def]
  simp only [unitWhere, h, ne_eq, not_true_eq_false, if_false]
  simp [V3.zero_def]

/-- C8 (amended).  The vector-normalization step never divides by zero: for
every nonzero 3-vector the computed norm is nonzero and the result is the
vector divided elementwise by its Euclidean norm; for a zero-norm input no
division is performed and the result row is the unspecified (uninitialized)
output contents `junk` — not necessarily the zero vector. -/
theorem C8_unit_guarded_division :
    (∀ junk v : V3 ℝ, v ≠ 0 →
      vnorm Real.sqrt v ≠ 0
        ∧ unitWhere Real.sqrt junk v = V3.divS v (vnorm Real.sqrt v))
    ∧ (∀ junk v : V3 ℝ, vnorm Real.sqrt v = 0 → unitWhere Real.sqrt junk v = junk) := by
  constructor
  · intro junk v hv
    have hne : v.x ≠ 0 ∨ v.y ≠ 0 ∨ v.z ≠ 0 := by
      by_contra hc
      push_neg at hc
      apply hv
      cases v
      simp [V3.zero_def] at hc ⊢
      exact hc
    have hd : 0 < V3.dot v v := by
      rw [V3.dot]
      rcases hne with h | h | h
      · nlinarith [mul_self_nonneg v.y, mul_self_nonneg v.z, mul_self_pos.mpr h]
      · nlinarith [mul_self_nonneg v.x, mul_self_nonneg v.z, mul_self_pos.mpr h]
      · nlinarith [mul_self_nonneg v.x, mul_self_nonneg v.y, mul_self_pos.mpr h]
    have hs : vnorm Real.sqrt v ≠ 0 := by
      rw [vnorm]
      exact Real.sqrt_ne_zero'.mpr hd
    exact ⟨hs, by rw [unitWhere]; simp [hs]⟩
  · intro junk v h
    simp [unitWhere, h]

/-- Witness for C8: normalization of the concrete nonzero vector `(1,0,0)`. -/
theorem C8_unit_guarded_division_witness :
    (⟨1, 0, 0⟩ : V3 ℝ) ≠ 0
      ∧ vnorm Real.sqrt (⟨1, 0, 0⟩ : V3 ℝ) ≠ 0
      ∧ unitWhere Real.sqrt ⟨9, 9, 9⟩ (⟨1, 0, 0⟩ : V3 ℝ)
          = V3.divS ⟨1, 0, 0⟩ (vnorm Real.sqrt (⟨1, 0, 0⟩ : V3 ℝ)) := by
  have h : (⟨1, 0, 0⟩ : V3 ℝ) ≠ 0 := by simp [V3.zero_def]
  exact ⟨h, (C8_unit_guarded_division.1 ⟨9, 9, 9⟩ _ h).1,
    (C8_unit_guarded_division.1 ⟨9, 9, 9⟩ _ h).2⟩

/-- C6. On the 10-frame scenario — target valid exactly at `{0..4, 8..9}`,
all three cluster markers valid at every frame — strategies A
(`recover_marker_rel`), B (`recover_marker_rbt`) and C (`fill_marker_gap_rbt`)
each report success with 10 valid frames and write residual `0.0` at the
gap frames 5, 6, 7, whatever the coordinate contents and the oracle values
(the written coordinates are field values of the embedding, the model of
non-NaN data); and in general `fill_marker_gap_rbt` modifies a frame `fr`
only when it is strictly bracketed by two jointly-valid frames
`fr0 < fr < fr1` with the whole cluster valid at every frame of the closed
interval `[fr0, fr1]`, not just at its endpoints. -/
theorem C6_scenario_fill_and_interval_guard :
    (∀ (sq : ℚ → ℚ) (jk : V3 ℚ) (tC c0 c1 c2 : ℕ → V3 ℚ),
      (recover_marker_rel sq jk 10 tC exTgtR c0 c1 c2 zeroResid zeroResid
          zeroResid).updated = true
      ∧ (recover_marker_rel sq jk 10 tC exTgtR c0 c1 c2 zeroResid zeroResid
          zeroResid).nValid = 10
      ∧ ((recover_marker_rel sq jk 10 tC exTgtR c0 c1 c2 zeroResid zeroResid
          zeroResid).wr.map fun w => (w.resid 5, w.resid 6, w.resid 7)) = some (0, 0, 0))
    ∧ (∀ (sq : ℚ → ℚ) (jk : V3 ℚ) (tC c0 c1 c2 : ℕ → V3 ℚ),
      (recover_marker_rbt sq jk 10 tC exTgtR c0 c1 c2 zeroResid zeroResid
          zeroResid).updated = true
      ∧ (recover_marker_rbt sq jk 10 tC exTgtR c0 c1 c2 zeroResid zeroResid
          zeroResid).nValid = 10
      ∧ ((recover_marker_rbt sq jk 10 tC exTgtR c0 c1 c2 zeroResid zeroResid
          zeroResid).wr.map fun w => (w.resid 5, w.resid 6, w.resid 7)) = some (0, 0, 0))
    ∧ (∀ (sq : ℚ → ℚ) (svd : M3 ℚ → M3 ℚ × V3 ℚ × M3 ℚ) (tC : ℕ → V3 ℚ)
        (cC : Fin 3 → ℕ → V3 ℚ),
      ((fill_marker_gap_rbt sq svd 10 tC exTgtR 3 cC clR3).map fun res =>
          (res.updated, res.nValid)) = some (true, 10)
      ∧ ((fill_marker_gap_rbt sq svd 10 tC exTgtR 3 cC clR3).bind fun res =>
          res.wr.map fun w => (w.resid 5, w.resid 6, w.resid 7)) = some (0, 0, 0))
    ∧ (∀ (α : Type) [LinearOrderedField α], ∀ (sqrt : α → α)
        (svd : M3 α → M3 α × V3 α × M3 α) (n : ℕ) (tgtC : ℕ → V3 α) (tgtR : ℕ → α)
        (m : ℕ) (clC : Fin m → ℕ → V3 α) (clR : Fin m → ℕ → α)
        (res : FillResult α) (w : WriteBack α) (fr : ℕ),
      fill_marker_gap_rbt sqrt svd n tgtC tgtR m clC clR = some res →
      res.wr = some w →
      w.pos fr ≠ tgtC fr ∨ w.resid fr ≠ tgtR fr →
      ∃ fr0 fr1,
        fr0 ∈ trueFrames n (fun k =>
          ((List.finRange m).all fun i => validB (clR i k)) && validB (tgtR k))
        ∧ fr1 ∈ trueFrames n (fun k =>
          ((List.finRange m).all fun i => validB (clR i k)) && validB (tgtR k))
        ∧ fr0 < fr ∧ fr < fr1
        ∧ ∀ k, fr0 ≤ k → k ≤ fr1 →
            ((List.finRange m).all fun i => validB (clR i k)) = true) := by
  refine ⟨fun sq jk tC c0 c1 c2 => rel_scenario_eval sq jk tC c0 c1 c2,
    fun sq jk tC c0 c1 c2 => rbt_scenario_eval sq jk tC c0 c1 c2,
    fun sq svd tC cC => fillRbt_scenario_eval sq svd tC cC, ?_⟩
  intro α _ sqrt svd n tgtC tgtR m clC clR res w fr hres hw hneq
  simp only [fill_marker_gap_rbt] at hres
  split at hres
  · injection hres with h'; subst h'; simp at hw
  · split at hres
    · injection hres with h'; subst h'; simp at hw
    · split at hres
      · injection hres with h'; subst h'; simp at hw
      · split at hres
        · injection hres with h'; subst h'; simp at hw
        · split at hres
          · cases hres
          · rename_i fin hfold
            have hkeep := foldl_opt_invariant _ _
              (fun st => (st.c fr = tgtC fr ∧ st.r fr = tgtR fr)
                ∨ ∃ fr0 fr1,
                  fr0 ∈ trueFrames n (fun k =>
                    ((List.finRange m).all fun i => validB (clR i k)) && validB (tgtR k))
                  ∧ fr1 ∈ trueFrames n (fun k =>
                    ((List.finRange m).all fun i => validB (clR i k)) && validB (tgtR k))
                  ∧ fr0 < fr ∧ fr < fr1
                  ∧ ∀ k, fr0 ≤ k → k ≤ fr1 →
                      ((List.finRange m).all fun i => validB (clR i k)) = true)
              (fun b => fillRbtStep_none sqrt svd clC _ _ b)
              (fun st b hb hInv st' heq => by
                by_cases hne : fr = b
                · subst hne
                  rcases fillRbtStep_cases sqrt svd clC
                      (fun k => (List.finRange m).all fun i => validB (clR i k))
                      (trueFrames n fun k =>
                        ((List.finRange m).all fun i => validB (clR i k))
                          && validB (tgtR k)) st fr with hc | hc |
                      ⟨fr0, fr1, v, hm0', hm1', hlt0, hlt1, hcl, hc⟩
                  · rw [hc] at heq; cases heq
                  · rw [hc] at heq; injection heq with h'; subst h'; exact hInv
                  · exact .inr ⟨fr0, fr1, hm0', hm1', hlt0, hlt1, hcl⟩
                · obtain ⟨hc, hr⟩ := fillRbtStep_untouched sqrt svd clC _ _ st st' b fr
                    hne heq
                  rcases hInv with ⟨h1, h2⟩ | hex
                  · exact .inl ⟨hc.trans h1, hr.trans h2⟩
                  · exact .inr hex)
              ⟨tgtC, tgtR, false⟩ fin (.inl ⟨rfl, rfl⟩) hfold
            split at hres
            · injection hres with h'; subst h'
              injection hw with hw'; subst hw'
              rcases hkeep with ⟨h1, h2⟩ | hex
              · rcases hneq with h | h
                · exact absurd h1 h
                · exact absurd h2 h
              · exact hex
            · injection hres with h'; subst h'; simp at hw

/-- Witness for C6: the concrete 10-frame scenario with identity oracles,
where `fill_marker_gap_rbt` modifies frame 5; the jointly-valid brackets
with full interval cluster validity exist as the general statement says. -/
theorem C6_scenario_fill_and_interval_guard_witness :
    ∃ res w, fill_marker_gap_rbt sqrtId svdTriv 10 cstC exTgtR 3 clC3 clR3 = some res
      ∧ res.wr = some w
      ∧ w.resid 5 ≠ exTgtR 5
      ∧ ∃ fr0 fr1,
        fr0 ∈ trueFrames 10 (fun k =>
          ((List.finRange 3).all fun i => validB (clR3 i k)) && validB (exTgtR k))
        ∧ fr1 ∈ trueFrames 10 (fun k =>
          ((List.finRange 3).all fun i => validB (clR3 i k)) && validB (exTgtR k))
        ∧ fr0 < 5 ∧ 5 < fr1
        ∧ ∀ k, fr0 ≤ k → k ≤ fr1 →
            ((List.finRange 3).all fun i => validB (clR3 i k)) = true := by
  rcases hres : fill_marker_gap_rbt sqrtId svdTriv 10 cstC exTgtR 3 clC3 clR3 with _ | res
  · have h := (fillRbt_scenario_eval sqrtId svdTriv cstC clC3).1
    rw [hres] at h
    simp at h
  · rcases hwr : res.wr with _ | w
    · have h := (fillRbt_scenario_eval sqrtId svdTriv cstC clC3).2
      rw [hres] at h
      simp [hwr] at h
    · have h5 : w.resid 5 = 0 := by
        have h := (fillRbt_scenario_eval sqrtId svdTriv cstC clC3).2
        rw [hres] at h
        simp [hwr] at h
        exact h.1
      have hneq : w.resid 5 ≠ exTgtR 5 := by
        rw [h5]
        norm_num [exTgtR]
      exact ⟨res, w, rfl, hwr, hneq,
        C6_scenario_fill_and_interval_guard.2.2.2 ℚ sqrtId svdTriv 10 cstC exTgtR 3 clC3
          clR3 res w 5 hres hwr (Or.inr hneq)⟩

/-- C7 counterexample: 9 frames, target invalid exactly at frame 4, donor
valid exactly at `{3,4,5}`, `search_span_offset = 1`, `min_needed_frs = 3`.
Only 2 jointly-valid target+donor frames exist in the search window —
fewer than `min_needed_frs` — and the donor is valid inside the gap, yet
`fill_marker_gap_pattern` does NOT skip the gap: it fills frame 4 with
residual `0.0` and returns `(True, 9)`.  The code (line 3898) counts
target-valid frames in the window, not jointly-valid target+donor
frames, refuting the claimed skip condition. -/
theorem C7_window_count_counterexample :
    (trueFrames 9 fun i => gapCand 9 1 (fun fr => validB (patTgtR fr)) [4] i
        && validB (patDnrR i)).length < 3
      ∧ runs (fun fr => ! validB (patTgtR fr)) 9 = [[4]]
      ∧ (∀ j ∈ ([4] : List ℕ), validB (patDnrR j) = true)
      ∧ ((fill_marker_gap_pattern 9 cstC patTgtR patDnrC patDnrR 1 3).map fun res =>
          (res.updated, res.nValid)) = some (true, 9)
      ∧ ((fill_marker_gap_pattern 9 cstC patTgtR patDnrC patDnrR 1 3).bind fun res =>
          res.wr.map fun w => w.resid 4) = some 0 := by
  have h := pattern_cex_eval
  refine ⟨by rw [h.2.2.1]; norm_num, h.2.2.2, ?_, h.1, h.2.1⟩
  intro j hj
  have hj4 : j = 4 := by simpa using hj
  subst hj4
  norm_num [patDnrR]
  exact validB_zero

/-- C7 (amended).  A gap of `fill_marker_gap_pattern` is skipped — none of
its frames modified in any write-back — whenever fewer than
`min_needed_frs` TARGET-valid frames (the code counts the target mask
only, line 3898, not jointly-valid target+donor frames) exist in the
search window of `ceil(gap_size/2)+offset` frames on each side, or
whenever the donor is invalid at some frame inside the gap; and every
frame a write-back does modify received residual `0.0` and the
pattern-reconstructed position
`interp(target) − interp(donor) + donor(fr)`, linearly interpolated
between two jointly-valid bracketing frames `fr0 < fr < fr1` on the
original data. -/
theorem C7_pattern_window_and_formula :
    (∀ (α : Type) [LinearOrderedField α], ∀ (n : ℕ) (tgtC : ℕ → V3 α) (tgtR : ℕ → α)
        (dnrC : ℕ → V3 α) (dnrR : ℕ → α) (off minNeeded : ℕ) (g : List ℕ) (fr : ℕ)
        (res : FillResult α) (w : WriteBack α),
      g ∈ runs (fun k => ! validB (tgtR k)) n →
      fr ∈ g →
      ((trueFrames n (gapCand n off (fun k => validB (tgtR k)) g)).length < minNeeded
        ∨ ∃ j ∈ g, validB (dnrR j) = false) →
      fill_marker_gap_pattern n tgtC tgtR dnrC dnrR off minNeeded = some res →
      res.wr = some w →
      w.pos fr = tgtC fr ∧ w.resid fr = tgtR fr)
    ∧ (∀ (α : Type) [LinearOrderedField α], ∀ (n : ℕ) (tgtC : ℕ → V3 α) (tgtR : ℕ → α)
        (dnrC : ℕ → V3 α) (dnrR : ℕ → α) (off minNeeded : ℕ) (fr : ℕ)
        (res : FillResult α) (w : WriteBack α),
      fill_marker_gap_pattern n tgtC tgtR dnrC dnrR off minNeeded = some res →
      res.wr = some w →
      w.pos fr ≠ tgtC fr ∨ w.resid fr ≠ tgtR fr →
      w.resid fr = 0 ∧ ∃ fr0 fr1, fr0 < fr ∧ fr < fr1
        ∧ validB (tgtR fr0) = true ∧ validB (dnrR fr0) = true
        ∧ validB (tgtR fr1) = true ∧ validB (dnrR fr1) = true
        ∧ w.pos fr =
            (((fr - fr0 : ℕ) : α) / ((fr1 - fr0 : ℕ) : α)) • (tgtC fr1 - tgtC fr0)
              + tgtC fr0
            - ((((fr - fr0 : ℕ) : α) / ((fr1 - fr0 : ℕ) : α)) • (dnrC fr1 - dnrC fr0)
              + dnrC fr0)
            + dnrC fr) := by
  constructor
  · intro α _ n tgtC tgtR dnrC dnrR off minNeeded g fr res w hg hfr hskip hres hw
    simp only [fill_marker_gap_pattern] at hres
    split at hres
    · injection hres with h'; subst h'; simp at hw
    · split at hres
      · injection hres with h'; subst h'; simp at hw
      · split at hres
        · injection hres with h'; subst h'; simp at hw
        · split at hres
          · injection hres with h'; subst h'; simp at hw
          · split at hres
            · cases hres
            · rename_i fin hfold
              have hkeep := foldl_opt_invariant _ _
                (fun st => st.c fr = tgtC fr ∧ st.r fr = tgtR fr)
                (fun g' => patternProcessGap_none n dnrC _ _ off minNeeded g')
                (fun st g' hg'mem hInv st' heq => by
                  by_cases hfrg : fr ∈ g'
                  · have hgg : g = g' := runs_disjoint hg hg'mem hfr hfrg
                    subst hgg
                    rcases patternProcessGap_cases n dnrC (fun k => validB (tgtR k))
                        (fun k => validB (dnrR k)) off minNeeded st g with hc |
                        ⟨_, _, _, hcnt, hdnr, _⟩
                    · rw [hc] at heq
                      injection heq with h'
                      subst h'
                      exact hInv
                    · exfalso
                      rcases hskip with h | ⟨j, hj, hjv⟩
                      · omega
                      · rw [hdnr j hj] at hjv
                        cases hjv
                  · obtain ⟨hc, hr⟩ := patternProcessGap_untouched n dnrC _ _ off
                      minNeeded g' fr hfrg st st' heq
                    exact ⟨hc.trans hInv.1, hr.trans hInv.2⟩)
                ⟨tgtC, tgtR, false⟩ fin ⟨rfl, rfl⟩ hfold
              split at hres
              · injection hres with h'; subst h'
                injection hw with hw'; subst hw'
                exact hkeep
              · injection hres with h'; subst h'; simp at hw
  · intro α _ n tgtC tgtR dnrC dnrR off minNeeded fr res w hres hw hneq
    simp only [fill_marker_gap_pattern] at hres
    split at hres
    · injection hres with h'; subst h'; simp at hw
    · split at hres
      · injection hres with h'; subst h'; simp at hw
      · split at hres
        · injection hres with h'; subst h'; simp at hw
        · split at hres
          · injection hres with h'; subst h'; simp at hw
          · split at hres
            · cases hres
            · rename_i fin hfold
              have hkeep := foldl_opt_invariant _ _
                (fun st =>
                  (∀ j, validB (tgtR j) = true → st.c j = tgtC j ∧ st.r j = tgtR j)
                  ∧ (∀ j, st.r j = tgtR j ∨ st.r j = 0)
                  ∧ (st.c fr = tgtC fr ∧ st.r fr = tgtR fr
                    ∨ st.r fr = 0 ∧ ∃ fr0 fr1, fr0 < fr ∧ fr < fr1
                        ∧ validB (tgtR fr0) = true ∧ validB (dnrR fr0) = true
                        ∧ validB (tgtR fr1) = true ∧ validB (dnrR fr1) = true
                        ∧ st.c fr =
                            (((fr - fr0 : ℕ) : α) / ((fr1 - fr0 : ℕ) : α))
                                • (tgtC fr1 - tgtC fr0) + tgtC fr0
                              - ((((fr - fr0 : ℕ) : α) / ((fr1 - fr0 : ℕ) : α))
                                • (dnrC fr1 - dnrC fr0) + dnrC fr0)
                              + dnrC fr))
                (fun g' => patternProcessGap_none n dnrC _ _ off minNeeded g')
                (fun st g' hg'mem hInv st' heq => by
                  have hginv : ∀ b ∈ g', validB (tgtR b) = false := by
                    intro b hb
                    obtain ⟨s, hs, rfl⟩ := mem_runs hg'mem
                    have hbv := (mem_runAt hb).2.2
                    simpa using hbv
                  rcases patternProcessGap_cases n dnrC (fun k => validB (tgtR k))
                      (fun k => validB (dnrR k)) off minNeeded st g' with hc |
                      ⟨_, _, _, _, _, hc⟩
                  · rw [hc] at heq
                    injection heq with h'
                    subst h'
                    exact hInv
                  · rw [hc] at heq
                    refine foldl_opt_invariant _ g' _
                      (fun b => patternStep_none dnrC _ _ b)
                      (fun st2 b hb hInv2 st2' heq2 => ?_) st st' hInv heq
                    have hconsv := patternStep_keeps dnrC _ _ tgtC tgtR st2 b
                      (hginv b hb) hInv2.1 hInv2.2.1 st2' heq2
                    refine ⟨hconsv.1, hconsv.2, ?_⟩
                    by_cases hne : fr = b
                    · subst hne
                      rcases patternStep_cases dnrC (fun k => validB (dnrR k))
                          (trueFrames n fun i =>
                            gapCand n off (fun k => validB (tgtR k)) g' i
                              && validB (dnrR i)) st2 fr with hc2 | hc2 |
                          ⟨fr0, fr1, hm0, hm1, hlt0, hlt1, hd0, hd1, hc2⟩
                      · rw [hc2] at heq2; cases heq2
                      · rw [hc2] at heq2
                        injection heq2 with h'
                        subst h'
                        exact hInv2.2.2
                      · rw [hc2] at heq2
                        injection heq2 with h'
                        subst h'
                        have h0 := mem_trueFrames.mp hm0
                        have h1 := mem_trueFrames.mp hm1
                        simp only [gapCand, Bool.and_eq_true] at h0 h1
                        have hcf0 := (hInv2.1 fr0 h0.2.1.2).1
                        have hcf1 := (hInv2.1 fr1 h1.2.1.2).1
                        refine .inr ⟨by simp [updF], fr0, fr1, hlt0, hlt1,
                          h0.2.1.2, h0.2.2, h1.2.1.2, h1.2.2, ?_⟩
                        simp [updF, hcf0, hcf1]
                    · obtain ⟨hc3, hr3⟩ := patternStep_untouched dnrC _ _ st2 st2' b fr
                        hne heq2
                      rcases hInv2.2.2 with ⟨ha2, hb2⟩ | ⟨hr0, fr0, fr1, hlt0, hlt1,
                          ht0, hdv0, ht1, hdv1, hcf⟩
                      · exact .inl ⟨hc3.trans ha2, hr3.trans hb2⟩
                      · exact .inr ⟨hr3.trans hr0, fr0, fr1, hlt0, hlt1, ht0, hdv0,
                          ht1, hdv1, hc3.trans hcf⟩)
                ⟨tgtC, tgtR, false⟩ fin
                ⟨fun j _ => ⟨rfl, rfl⟩, fun j => .inl rfl, .inl ⟨rfl, rfl⟩⟩ hfold
              split at hres
              · injection hres with h'; subst h'
                injection hw with hw'; subst hw'
                rcases hkeep.2.2 with ⟨h1, h2⟩ | ⟨hr0, hex⟩
                · rcases hneq with h | h
                  · exact absurd h1 h
                  · exact absurd h2 h
                · exact ⟨hr0, hex⟩
              · injection hres with h'; subst h'; simp at hw

/-- Witness for the amended C7: the two-gap 11-frame scenario, where the
gap `{2}` (donor invalid inside it) is skipped and the gap `{8}` is filled
with the pattern formula. -/
theorem C7_pattern_window_and_formula_witness :
    ∃ res w, fill_marker_gap_pattern 11 cstC wTgtR patDnrC wDnrR 1 1 = some res
      ∧ res.wr = some w
      ∧ [2] ∈ runs (fun k => ! validB (wTgtR k)) 11
      ∧ (∃ j ∈ ([2] : List ℕ), validB (wDnrR j) = false)
      ∧ w.pos 2 = cstC 2 ∧ w.resid 2 = wTgtR 2
      ∧ w.resid 8 ≠ wTgtR 8
      ∧ w.resid 8 = 0 ∧ ∃ fr0 fr1, fr0 < 8 ∧ 8 < fr1
          ∧ validB (wTgtR fr0) = true ∧ validB (wDnrR fr0) = true
          ∧ validB (wTgtR fr1) = true ∧ validB (wDnrR fr1) = true
          ∧ w.pos 8 =
              (((8 - fr0 : ℕ) : ℚ) / ((fr1 - fr0 : ℕ) : ℚ)) • (cstC fr1 - cstC fr0)
                + cstC fr0
              - ((((8 - fr0 : ℕ) : ℚ) / ((fr1 - fr0 : ℕ) : ℚ))
                • (patDnrC fr1 - patDnrC fr0) + patDnrC fr0)
              + patDnrC 8 := by
  rcases hres : fill_marker_gap_pattern 11 cstC wTgtR patDnrC wDnrR 1 1 with _ | res
  · have h := pattern_two_gap_eval.1
    rw [hres] at h
    simp at h
  · rcases hwr : res.wr with _ | w
    · have h := pattern_two_gap_eval.2.1
      rw [hres] at h
      simp [hwr] at h
    · have h := pattern_two_gap_eval.2.1
      rw [hres] at h
      simp [hwr] at h
      have hmem : [2] ∈ runs (fun k => ! validB (wTgtR k)) 11 := by
        rw [pattern_two_gap_eval.2.2]
        simp
      have hdj : ∃ j ∈ ([2] : List ℕ), validB (wDnrR j) = false :=
        ⟨2, by simp, by norm_num [wDnrR]; exact validB_neg_one⟩
      have ha := C7_pattern_window_and_formula.1 ℚ 11 cstC wTgtR patDnrC wDnrR 1 1
        [2] 2 res w hmem (by simp) (Or.inr hdj) hres hwr
      have hneq : w.resid 8 ≠ wTgtR 8 := by
        rw [h.2]
        norm_num [wTgtR]
      have hb := C7_pattern_window_and_formula.2 ℚ 11 cstC wTgtR patDnrC wDnrR 1 1
        8 res w hres hwr (Or.inr hneq)
      exact ⟨res, w, rfl, hwr, hmem, hdj, ha.1, ha.2, hneq, hb.1, hb.2⟩

/-- C5 counterexample: the source (line 3727) computes the reflection
correction as `np.diag([1.0, 1.0, np.linalg.det(np.dot(u, vt))])`,
injecting the determinant sign at the THIRD (last) diagonal position,
whereas the specification says the sign is "injected into the middle
singular value".  At `U = 1`, `Vt = diag(1, 1, -1)` the two constructions
give different rotation matrices (they differ at entry `(1,1)`). -/
theorem C5_reflection_position_counterexample :
    rbtRot (1 : Matrix (Fin 3) (Fin 3) ℚ) (Matrix.diagonal ![1, 1, -1])
      ≠ rbtRotMiddleSpec 1 (Matrix.diagonal ![1, 1, -1]) := by
  intro h
  have h11 : rbtRot (1 : Matrix (Fin 3) (Fin 3) ℚ) (Matrix.diagonal ![1, 1, -1]) 1 1
      = rbtRotMiddleSpec 1 (Matrix.diagonal ![1, 1, -1]) 1 1 := by rw [h]
  rw [rbtRot, rbtRotMiddleSpec, reflDiag, reflDiagMiddleSpec] at h11
  simp only [Matrix.one_mul, Matrix.diagonal_mul_diagonal, Matrix.diagonal_apply_eq,
    Matrix.det_diagonal, Fin.prod_univ_three, Pi.mul_apply, Matrix.cons_val_one,
    Matrix.head_cons, Matrix.cons_val_zero, Matrix.cons_val_two, Matrix.tail_cons] at h11
  norm_num at h11

/-- C5 (amended).  The reflection correction of the `RBT` helper injects
`det(U·Vt)` at the third (last) diagonal position, not the middle one
(see the counterexample).  With that correction the helper is right:
whenever `U` and `Vt` are orthogonal and `U·diag(S)·Vt` is a singular
value decomposition (`S` nonnegative and descending) of the
cross-covariance of point sets `A`, `B` of at least 3 points with `B` an
exact rigid transform of `A` (`R₀` a proper rotation), the returned
rotation has determinant `+1`, the residual vectors all vanish and the
mean residual norm is `0`. -/
theorem C5_rigid_fit_proper_rotation_exact :
    ∀ (n : ℕ) (A B : Matrix (Fin n) (Fin 3) ℝ) (R₀ : Matrix (Fin 3) (Fin 3) ℝ)
      (t₀ : Fin 3 → ℝ) (U Vt : Matrix (Fin 3) (Fin 3) ℝ) (S : Fin 3 → ℝ),
    3 ≤ n →
    R₀.transpose * R₀ = 1 →
    R₀.det = 1 →
    (∀ i j, B i j = R₀.mulVec (fun k => A i k) j + t₀ j) →
    U.transpose * U = 1 →
    Vt * Vt.transpose = 1 →
    crossCov A B = U * Matrix.diagonal S * Vt →
    (∀ i, 0 ≤ S i) →
    S 1 ≤ S 0 →
    S 2 ≤ S 1 →
    (rbtRot U Vt).det = 1
      ∧ rbtErrVec (rbtRot U Vt) (rbtTrans (rbtRot U Vt) A B) A B = 0
      ∧ rbtMeanErrNorm Real.sqrt
          (rbtErrVec (rbtRot U Vt) (rbtTrans (rbtRot U Vt) A B) A B) = 0 := by
  intro n A B R₀ t₀ U Vt S hn hR₀ hdR₀ hB hU hVt hsvd hSnn hS10 hS21
  have hn0 : (n : ℝ) ≠ 0 := Nat.cast_ne_zero.mpr (by omega)
  have hVt' : Vt.transpose * Vt = 1 := Matrix.mul_eq_one_comm.mp hVt
  have hR₀' : R₀ * R₀.transpose = 1 := Matrix.mul_eq_one_comm.mp hR₀
  have hU2 : U.det * U.det = 1 := by
    have h := congrArg Matrix.det hU
    rwa [Matrix.det_mul, Matrix.det_transpose, Matrix.det_one] at h
  have hV2 : Vt.det * Vt.det = 1 := by
    have h := congrArg Matrix.det hVt
    rwa [Matrix.det_mul, Matrix.det_transpose, Matrix.det_one] at h
  -- the centroid of `B` is the transform of the centroid of `A`
  have hAc : ∀ j, ptCentroid B j = R₀.mulVec (ptCentroid A) j + t₀ j := by
    intro j
    simp only [ptCentroid, Matrix.mulVec, Matrix.dotProduct]
    rw [Finset.sum_congr rfl fun i _ => hB i j]
    simp only [Matrix.mulVec, Matrix.dotProduct]
    rw [Finset.sum_add_distrib, Finset.sum_const, Finset.card_univ, Fintype.card_fin,
      add_div, Finset.sum_comm]
    congr 1
    · rw [Finset.sum_div]
      refine Finset.sum_congr rfl fun k _ => ?_
      rw [← Finset.mul_sum, mul_div_assoc]
    · rw [nsmul_eq_mul, mul_comm, mul_div_assoc, div_self hn0, mul_one]
  -- the centred point sets differ by the rotation only
  have hflip : ∀ (v w : Fin 3 → ℝ), ∑ k, v k * w k = ∑ k, w k * v k :=
    fun v w => Finset.sum_congr rfl fun k _ => mul_comm _ _
  have hBt : centered B = centered A * R₀.transpose := by
    ext i j
    simp only [centered, Matrix.of_apply, Matrix.mul_apply, Matrix.transpose_apply]
    rw [hB i j, hAc j]
    simp only [Matrix.mulVec, Matrix.dotProduct]
    simp only [sub_mul, Finset.sum_sub_distrib]
    rw [hflip (fun k => A i k) fun k => R₀ j k,
      hflip (fun k => ptCentroid A k) fun k => R₀ j k]
    ring
  -- the cross-covariance is `R₀ · G` with `G = Ãᵀ·Ã`
  have hG : crossCov A B = R₀ * ((centered A).transpose * centered A) := by
    rw [crossCov, hBt, Matrix.transpose_mul, Matrix.transpose_transpose,
      Matrix.mul_assoc]
  have hSVD : U * Matrix.diagonal S * Vt
      = R₀ * ((centered A).transpose * centered A) := by
    rw [← hsvd]
    exact hG
  -- `M := Vt·R₀ᵀ·U` is orthogonal and `M·diag(S)` is symmetric PSD
  have hMt : (Vt * R₀.transpose * U).transpose
      = U.transpose * (R₀ * Vt.transpose) := by
    rw [Matrix.transpose_mul, Matrix.transpose_mul, Matrix.transpose_transpose]
  have hMorth : (Vt * R₀.transpose * U).transpose * (Vt * R₀.transpose * U) = 1 := by
    rw [hMt]
    calc U.transpose * (R₀ * Vt.transpose) * (Vt * R₀.transpose * U)
        = U.transpose * (R₀ * ((Vt.transpose * Vt) * R₀.transpose)) * U := by noncomm_ring
      _ = 1 := by rw [hVt', one_mul, hR₀', mul_one, hU]
  have hUSd : U * Matrix.diagonal S
      = R₀ * ((centered A).transpose * centered A) * Vt.transpose := by
    calc U * Matrix.diagonal S
        = U * Matrix.diagonal S * (Vt * Vt.transpose) := by rw [hVt, mul_one]
      _ = (U * Matrix.diagonal S * Vt) * Vt.transpose := by noncomm_ring
      _ = R₀ * ((centered A).transpose * centered A) * Vt.transpose := by rw [hSVD]
  have hMS1 : Vt * R₀.transpose * U * Matrix.diagonal S
      = Vt * ((centered A).transpose * centered A) * Vt.transpose := by
    calc Vt * R₀.transpose * U * Matrix.diagonal S
        = Vt * R₀.transpose * (U * Matrix.diagonal S) := by noncomm_ring
      _ = Vt * R₀.transpose
          * (R₀ * ((centered A).transpose * centered A) * Vt.transpose) := by rw [hUSd]
      _ = Vt * ((R₀.transpose * R₀) * ((centered A).transpose * centered A))
          * Vt.transpose := by noncomm_ring
      _ = Vt * ((centered A).transpose * centered A) * Vt.transpose := by
          rw [hR₀, one_mul]
  have hGpsd : ((centered A).transpose * centered A).PosSemidef := by
    have h := Matrix.posSemidef_conjTranspose_mul_self (centered A)
    rwa [Matrix.conjTranspose_eq_transpose_of_trivial] at h
  have hMSpsd : (Vt * R₀.transpose * U * Matrix.diagonal S).PosSemidef := by
    have h2 := hGpsd.mul_mul_conjTranspose_same Vt
    rw [Matrix.conjTranspose_eq_transpose_of_trivial] at h2
    rw [hMS1]
    exact h2
  have hSdpsd : (Matrix.diagonal S).PosSemidef :=
    Matrix.posSemidef_diagonal_iff.mpr hSnn
  have hMSsymm : (Vt * R₀.transpose * U * Matrix.diagonal S).transpose
      = Vt * R₀.transpose * U * Matrix.diagonal S := by
    rw [← Matrix.conjTranspose_eq_transpose_of_trivial]
    exact hMSpsd.1
  have hsq : (Vt * R₀.transpose * U * Matrix.diagonal S) ^ 2
      = (Matrix.diagonal S) ^ 2 := by
    rw [pow_two, pow_two]
    calc (Vt * R₀.transpose * U * Matrix.diagonal S)
          * (Vt * R₀.transpose * U * Matrix.diagonal S)
        = (Vt * R₀.transpose * U * Matrix.diagonal S).transpose
          * (Vt * R₀.transpose * U * Matrix.diagonal S) := by rw [hMSsymm]
      _ = (Matrix.diagonal S).transpose
          * (((Vt * R₀.transpose * U).transpose * (Vt * R₀.transpose * U))
            * Matrix.diagonal S) := by rw [Matrix.transpose_mul]; noncomm_ring
      _ = Matrix.diagonal S * Matrix.diagonal S := by
          rw [hMorth, one_mul, Matrix.diagonal_transpose]
  -- PSD square-root uniqueness: `M·diag(S) = diag(S)`
  have hMS : Vt * R₀.transpose * U * Matrix.diagonal S = Matrix.diagonal S :=
    hMSpsd.eq_of_sq_eq_sq hSdpsd hsq
  have hGform : (centered A).transpose * centered A
      = Vt.transpose * Matrix.diagonal S * Vt := by
    have h3 : Vt * ((centered A).transpose * centered A) * Vt.transpose
        = Matrix.diagonal S := by
      rw [← hMS1]
      exact hMS
    calc (centered A).transpose * centered A
        = (Vt.transpose * Vt) * ((centered A).transpose * centered A)
          * (Vt.transpose * Vt) := by rw [hVt', one_mul, mul_one]
      _ = Vt.transpose
          * (Vt * ((centered A).transpose * centered A) * Vt.transpose) * Vt := by
          noncomm_ring
      _ = Vt.transpose * Matrix.diagonal S * Vt := by rw [h3]
  -- the correction factor acts trivially on the singular values
  have hDS : reflDiag U Vt * Matrix.diagonal S = Matrix.diagonal S := by
    have hd23 : (U * Vt).det * S 2 = S 2 := by
      by_cases hS2 : S 2 = 0
      · rw [hS2, mul_zero]
      · have h20 : 0 < S 2 := lt_of_le_of_ne (hSnn 2) (Ne.symm hS2)
        have h21 : 0 < S 1 := lt_of_lt_of_le h20 hS21
        have h22 : 0 < S 0 := lt_of_lt_of_le h21 hS10
        have hdetS : IsUnit (Matrix.diagonal S).det := by
          rw [Matrix.det_diagonal, Fin.prod_univ_three]
          exact isUnit_iff_ne_zero.mpr (ne_of_gt (mul_pos (mul_pos h22 h21) h20))
        have hM1 : Vt * R₀.transpose * U = 1 := by
          calc Vt * R₀.transpose * U
              = Vt * R₀.transpose * U
                * (Matrix.diagonal S * (Matrix.diagonal S)⁻¹) := by
                rw [Matrix.mul_nonsing_inv _ hdetS, mul_one]
            _ = (Vt * R₀.transpose * U * Matrix.diagonal S)
                * (Matrix.diagonal S)⁻¹ := by noncomm_ring
            _ = Matrix.diagonal S * (Matrix.diagonal S)⁻¹ := by rw [hMS]
            _ = 1 := Matrix.mul_nonsing_inv _ hdetS
        have hdet2 : Vt.det * R₀.det * U.det = 1 := by
          have h := congrArg Matrix.det hM1
          rwa [Matrix.det_mul, Matrix.det_mul, Matrix.det_transpose, Matrix.det_one] at h
        have hUV1 : (U * Vt).det = 1 := by
          rw [Matrix.det_mul]
          rw [hdR₀, mul_one] at hdet2
          linear_combination hdet2
        rw [hUV1, one_mul]
    have hfun : (fun i => ![(1 : ℝ), 1, (U * Vt).det] i * S i) = S := by
      funext j
      fin_cases j
      · simp
      · simp
      · simpa [Matrix.cons_val_two, Matrix.tail_cons, Matrix.head_cons] using hd23
    rw [reflDiag, Matrix.diagonal_mul_diagonal, hfun]
  -- the corrected rotation acts on `G` exactly as `R₀`
  have hRG : rbtRot U Vt * ((centered A).transpose * centered A)
      = R₀ * ((centered A).transpose * centered A) := by
    simp only [rbtRot]
    calc U * reflDiag U Vt * Vt * ((centered A).transpose * centered A)
        = U * reflDiag U Vt * Vt
          * (Vt.transpose * Matrix.diagonal S * Vt) := by rw [hGform]
      _ = U * (reflDiag U Vt * (Vt * Vt.transpose) * Matrix.diagonal S) * Vt := by
          noncomm_ring
      _ = U * (reflDiag U Vt * Matrix.diagonal S) * Vt := by rw [hVt, mul_one]
      _ = U * Matrix.diagonal S * Vt := by rw [hDS]
      _ = R₀ * ((centered A).transpose * centered A) := hSVD
  -- hence the centred residual matrix vanishes
  have h0 : (rbtRot U Vt - R₀) * ((centered A).transpose * centered A) = 0 := by
    rw [sub_mul, hRG, sub_self]
  have hNN : (centered A * (rbtRot U Vt - R₀).transpose).conjTranspose
      * (centered A * (rbtRot U Vt - R₀).transpose) = 0 := by
    rw [Matrix.conjTranspose_eq_transpose_of_trivial, Matrix.transpose_mul,
      Matrix.transpose_transpose]
    calc (rbtRot U Vt - R₀) * (centered A).transpose
          * (centered A * (rbtRot U Vt - R₀).transpose)
        = ((rbtRot U Vt - R₀) * ((centered A).transpose * centered A))
          * (rbtRot U Vt - R₀).transpose := by
          rw [Matrix.mul_assoc, ← Matrix.mul_assoc (centered A).transpose,
            ← Matrix.mul_assoc]
      _ = 0 := by rw [h0, zero_mul]
  have hNzero : centered A * (rbtRot U Vt - R₀).transpose = 0 :=
    Matrix.conjTranspose_mul_self_eq_zero.mp hNN
  -- determinant of the corrected rotation
  have hdet1 : (rbtRot U Vt).det = 1 := by
    have hd : (U * Vt).det = U.det * Vt.det := Matrix.det_mul U Vt
    rw [rbtRot, Matrix.det_mul, Matrix.det_mul, reflDiag, Matrix.det_diagonal,
      Fin.prod_univ_three, hd]
    simp only [Matrix.cons_val_zero, Matrix.cons_val_one, Matrix.head_cons,
      Matrix.cons_val_two, Matrix.tail_cons]
    linear_combination (Vt.det * Vt.det) * hU2 + hV2
  -- the per-point residual rows vanish
  have hkey : ∀ (X : Matrix (Fin n) (Fin 3) ℝ) (Y : Matrix (Fin 3) (Fin 3) ℝ)
      (i : Fin n) (j : Fin 3),
      (X * Y.transpose) i j = Y.mulVec (fun k => X i k) j := by
    intro X Y i j
    simp only [Matrix.mul_apply, Matrix.transpose_apply, Matrix.mulVec,
      Matrix.dotProduct]
    exact Finset.sum_congr rfl fun k _ => mul_comm _ _
  have hEV : rbtErrVec (rbtRot U Vt) (rbtTrans (rbtRot U Vt) A B) A B = 0 := by
    ext i j
    have hNij : (centered A * (rbtRot U Vt - R₀).transpose) i j = 0 := by
      rw [hNzero]
      simp
    rw [hkey (centered A) (rbtRot U Vt - R₀) i j] at hNij
    have hvec : (fun k => centered A i k) = (fun k => A i k) - ptCentroid A := by
      funext k
      simp [centered]
    rw [hvec, Matrix.sub_mulVec] at hNij
    simp only [Pi.sub_apply] at hNij
    rw [Matrix.mulVec_sub, Matrix.mulVec_sub] at hNij
    simp only [Pi.sub_apply] at hNij
    simp only [rbtErrVec, rbtTrans, Matrix.of_apply, Matrix.zero_apply]
    rw [hB i j, hAc j]
    linarith [hNij]
  have hMean : rbtMeanErrNorm Real.sqrt
      (rbtErrVec (rbtRot U Vt) (rbtTrans (rbtRot U Vt) A B) A B) = 0 := by
    rw [hEV]
    simp [rbtMeanErrNorm]
  exact ⟨hdet1, hEV, hMean⟩

/-- Witness for the amended C5: the 3-point set with rows `(1,0,0)`,
`(-1,0,0)`, `(0,0,0)` mapped by the identity rigid transform, whose
cross-covariance `diag(2,0,0)` has the trivial SVD `U = Vt = 1`,
`S = (2,0,0)`. -/
theorem C5_rigid_fit_proper_rotation_exact_witness :
    (rbtRot (1 : Matrix (Fin 3) (Fin 3) ℝ) 1).det = 1
      ∧ rbtErrVec (rbtRot (1 : Matrix (Fin 3) (Fin 3) ℝ) 1)
          (rbtTrans (rbtRot (1 : Matrix (Fin 3) (Fin 3) ℝ) 1)
            !![(1 : ℝ), 0, 0; -1, 0, 0; 0, 0, 0] !![(1 : ℝ), 0, 0; -1, 0, 0; 0, 0, 0])
          !![(1 : ℝ), 0, 0; -1, 0, 0; 0, 0, 0] !![(1 : ℝ), 0, 0; -1, 0, 0; 0, 0, 0]
        = 0
      ∧ rbtMeanErrNorm Real.sqrt
          (rbtErrVec (rbtRot (1 : Matrix (Fin 3) (Fin 3) ℝ) 1)
            (rbtTrans (rbtRot (1 : Matrix (Fin 3) (Fin 3) ℝ) 1)
              !![(1 : ℝ), 0, 0; -1, 0, 0; 0, 0, 0] !![(1 : ℝ), 0, 0; -1, 0, 0; 0, 0, 0])
            !![(1 : ℝ), 0, 0; -1, 0, 0; 0, 0, 0] !![(1 : ℝ), 0, 0; -1, 0, 0; 0, 0, 0])
        = 0 := by
  have hcc : crossCov !![(1 : ℝ), 0, 0; -1, 0, 0; 0, 0, 0]
      !![(1 : ℝ), 0, 0; -1, 0, 0; 0, 0, 0]
      = 1 * Matrix.diagonal ![2, 0, 0] * 1 := by
    rw [Matrix.one_mul, Matrix.mul_one]
    ext j k
    fin_cases j <;> fin_cases k <;>
      norm_num [crossCov, centered, ptCentroid, Matrix.mul_apply, Matrix.transpose_apply,
        Fin.sum_univ_three, Matrix.diagonal, Matrix.of_apply, Matrix.cons_val_zero,
        Matrix.cons_val_one, Matrix.head_cons, Matrix.cons_val_two, Matrix.tail_cons,
        Fin.ext_iff]
  exact C5_rigid_fit_proper_rotation_exact 3
    !![(1 : ℝ), 0, 0; -1, 0, 0; 0, 0, 0] !![(1 : ℝ), 0, 0; -1, 0, 0; 0, 0, 0]
    1 0 1 1 ![2, 0, 0]
    (by norm_num)
    (by simp)
    (by simp)
    (fun i j => by simp [Matrix.one_mulVec])
    (by simp)
    (by simp)
    hcc
    (fun i => by fin_cases i <;> norm_num)
    (by norm_num)
    (by norm_num)

end PyC3D
